import Mathlib

/-!
Verification development for the Solana token-transfer reconstruction pipeline.

The TypeScript source is shallowly embedded: JavaScript numbers that may be
`NaN` are modelled by `JsNum` (a rational or `nan`), `parseInt` by
`parseIntJs`, and the transfer-reconstruction functions of
`src/config.ts` (class `TransactionParser`) and
`src/services/solanaService.ts` (class `SolanaService`) by computable Lean
functions of the same names.  Network effects are modelled by passing the
results of upstream calls as explicit arguments, and by explicit traces of
requests and delays for the retry/circuit-breaker logic of `HeliusService`.
-/

/-- Exact rational subtraction written through `mkRat` so that the kernel can
evaluate it on literals. -/
def ratSub (a b : ℚ) : ℚ := mkRat (a.num * b.den - b.num * a.den) (a.den * b.den)

/-- Exact rational multiplication written through `mkRat`. -/
def ratMul (a b : ℚ) : ℚ := mkRat (a.num * b.num) (a.den * b.den)

/-- Exact division by `10 ^ d` written through `mkRat`. -/
def ratDivPow10 (a : ℚ) (d : ℕ) : ℚ := mkRat a.num (a.den * 10 ^ d)

/-- Absolute value by case split, evaluable by the kernel. -/
def ratAbs (a : ℚ) : ℚ := if a < 0 then -a else a

/-- Binary maximum by case split, evaluable by the kernel. -/
def ratMax (a b : ℚ) : ℚ := if a < b then b else a

theorem ratSub_eq (a b : ℚ) : ratSub a b = a - b := by
  have ha : (a.den : ℚ) ≠ 0 := by exact_mod_cast a.den_nz
  have hb : (b.den : ℚ) ≠ 0 := by exact_mod_cast b.den_nz
  rw [ratSub, Rat.mkRat_eq_div]
  push_cast
  conv_rhs => rw [← Rat.num_div_den a, ← Rat.num_div_den b]
  rw [div_sub_div _ _ ha hb]
  ring_nf

theorem ratMul_eq (a b : ℚ) : ratMul a b = a * b := by
  rw [ratMul, Rat.mkRat_eq_div]
  push_cast
  conv_rhs => rw [← Rat.num_div_den a, ← Rat.num_div_den b]
  rw [div_mul_div_comm]

theorem ratDivPow10_eq (a : ℚ) (d : ℕ) : ratDivPow10 a d = a / 10 ^ d := by
  rw [ratDivPow10, Rat.mkRat_eq_div]
  push_cast
  conv_rhs => rw [← Rat.num_div_den a]
  rw [div_div]

theorem ratAbs_eq (a : ℚ) : ratAbs a = |a| := by
  by_cases h : a < 0
  · rw [ratAbs, if_pos h, abs_of_neg h]
  · rw [ratAbs, if_neg h, abs_of_nonneg (not_lt.mp h)]

theorem ratMax_eq (a b : ℚ) : ratMax a b = max a b := by
  by_cases h : a < b
  · rw [ratMax, if_pos h, max_eq_right h.le]
  · rw [ratMax, if_neg h, max_eq_left (not_lt.mp h)]

/-- A JavaScript number as used by the balance arithmetic: either a finite
value (modelled as a rational) or `NaN`. -/
inductive JsNum where
  | nan : JsNum
  | num : ℚ → JsNum
deriving DecidableEq

namespace JsNum

/-- JS subtraction: `NaN` propagates. -/
def sub : JsNum → JsNum → JsNum
  | num a, num b => num (ratSub a b)
  | _, _ => nan

/-- JS unary minus: `NaN` propagates. -/
def neg : JsNum → JsNum
  | num a => num (-a)
  | nan => nan

/-- `Math.abs`: `NaN` propagates. -/
def abs : JsNum → JsNum
  | num a => num (ratAbs a)
  | nan => nan

/-- Division by `Math.pow(10, d)` for a natural `d`. -/
def divPow10 : JsNum → ℕ → JsNum
  | num a, d => num (ratDivPow10 a d)
  | nan, _ => nan

/-- `Math.max`: `NaN` propagates. -/
def maxJ : JsNum → JsNum → JsNum
  | num a, num b => num (ratMax a b)
  | _, _ => nan

/-- Multiplication by a rational constant: `NaN` propagates. -/
def mulQ : JsNum → ℚ → JsNum
  | num a, q => num (ratMul a q)
  | nan, _ => nan

/-- JS `<`: any comparison with `NaN` is false. -/
def ltB : JsNum → JsNum → Bool
  | num a, num b => decide (a < b)
  | _, _ => false

/-- JS `<=`: any comparison with `NaN` is false. -/
def leB : JsNum → JsNum → Bool
  | num a, num b => decide (a ≤ b)
  | _, _ => false

/-- JS `x > 0`: false for `NaN`. -/
def gtZeroB : JsNum → Bool
  | num a => decide (0 < a)
  | nan => false

/-- JS `x < 0`: false for `NaN`. -/
def ltZeroB : JsNum → Bool
  | num a => decide (a < 0)
  | nan => false

/-- JS `x === 0`: false for `NaN`. -/
def eqZeroB : JsNum → Bool
  | num a => decide (a = 0)
  | nan => false

/-- JS `x !== 0`: true for `NaN`. -/
def neqZeroB : JsNum → Bool
  | num a => decide (a ≠ 0)
  | nan => true

/-- `Math.sign`: `NaN` propagates. -/
def signJ : JsNum → JsNum
  | nan => nan
  | num a => num (if a < 0 then -1 else if a = 0 then 0 else 1)

/-- JS strict inequality `!==` on numbers: `NaN !== x` is true for every `x`,
including `NaN` itself. -/
def strictNeqB : JsNum → JsNum → Bool
  | nan, _ => true
  | _, nan => true
  | num a, num b => decide (a ≠ b)

/-- JS `isNaN`. -/
def isNaNB : JsNum → Bool
  | nan => true
  | num _ => false

end JsNum

/-- Value of a list of decimal digit characters. -/
def digitsToNat (l : List Char) : ℕ :=
  l.foldl (fun acc c => 10 * acc + (c.toNat - 48)) 0

/-- Parse the longest leading run of decimal digits; `NaN` when there is none,
exactly as JS `parseInt` behaves on such strings. -/
def parseIntCore (l : List Char) : JsNum :=
  let ds := l.takeWhile Char.isDigit
  if ds.isEmpty then JsNum.nan else JsNum.num (digitsToNat ds : ℚ)

/-- JS `parseInt` on a raw-amount string: optional sign followed by digits;
a non-numeric string yields `NaN` (never 0). -/
def parseIntJs (s : String) : JsNum :=
  match s.data with
  | '-' :: rest => (parseIntCore rest).neg
  | '+' :: rest => parseIntCore rest
  | l => parseIntCore l

/-- One account's token balance snapshot attached to a transaction
(`TokenBalance` of `@solana/web3.js`): account index, mint, optional owning
entity, the raw amount as a string, and the optional explicit decimals. -/
structure TokenBalance where
  accountIndex : ℕ
  mint : String
  owner : Option String
  amount : String
  decimals : Option ℕ
deriving DecidableEq

/-- A net signed balance change for one owning entity (`BalanceChange` in the
source). -/
structure BalanceChange where
  owner : String
  change : JsNum
  account : String
deriving DecidableEq

/-- Direction tag of a reconstructed transfer. -/
inductive TransferDirection where
  | sent
  | received
deriving DecidableEq

/-- A reconstructed transfer event (`TokenTransfer` in the source).  The
amount is a `JsNum` because the source computes it with JS arithmetic that can
produce `NaN`. -/
structure TokenTransfer where
  signature : String
  timestamp : ℤ
  direction : TransferDirection
  amount : JsNum
  fromAddress : String
  toAddress : String
  slot : ℕ
deriving DecidableEq

/-- The parts of a `ParsedTransactionWithMeta` the reconstruction reads. -/
structure ParsedTx where
  hasMeta : Bool
  blockTime : Option ℤ
  preTokenBalances : List TokenBalance
  postTokenBalances : List TokenBalance
  signatures : List String
  slot : ℕ
deriving DecidableEq

/-- The string used as the absent-counterparty placeholder in the source. -/
def unknownEntity : String := "Unknown"

/-- `transaction.transaction.signatures[0]`, with the empty string standing
for an absent entry. -/
def firstSignature : List String → String
  | [] => ""
  | s :: _ => s

/-- The `Map` from account index to pre-balance built by both extractor
variants: keys are set only for entries of the queried mint, a later entry
with the same account index overwrites an earlier one. -/
def preBalanceLookup (pre : List TokenBalance) (mint : String) (idx : ℕ) :
    Option TokenBalance :=
  ((pre.filter (fun b => b.mint == mint)).reverse).find?
    (fun b => b.accountIndex == idx)

namespace SolanaService

/-- `SolanaService.calculateTokenBalanceChanges`
(src/services/solanaService.ts, lines 862-899): per matching post-balance,
the signed change against the pre-balance map; entries without an owner or
with zero change are skipped.  This variant has no closure handling: a
pre-balance whose account has no post-balance produces nothing. -/
def calculateTokenBalanceChanges (pre post : List TokenBalance)
    (mint : String) : List BalanceChange :=
  post.filterMap (fun pb =>
    if pb.mint == mint then
      let preAmount : JsNum :=
        match preBalanceLookup pre mint pb.accountIndex with
        | some b => parseIntJs b.amount
        | none => JsNum.num 0
      let postAmount := parseIntJs pb.amount
      let change := postAmount.sub preAmount
      match pb.owner with
      | some o =>
          if change.neqZeroB then some ⟨o, change, toString pb.accountIndex⟩
          else none
      | none => none
    else none)

/-- `SolanaService.getTokenDecimalsFromBalances`
(src/services/solanaService.ts, lines 901-909): decimals of the first
snapshot entry matching the mint, defaulting to 6.  No static table is
consulted. -/
def getTokenDecimalsFromBalances (pre post : List TokenBalance)
    (mint : String) : ℕ :=
  match (pre ++ post).find? (fun b => b.mint == mint) with
  | some b => b.decimals.getD 6
  | none => 6

/-- `SolanaService.findCounterparty` (lines 911-925): the first balance
change of a different owner whose `Math.sign` differs (JS `!==`, so `NaN`
differs from everything) from the wallet's change. -/
def findCounterparty (changes : List BalanceChange) (wallet : String) :
    String :=
  match changes.find? (fun c => c.owner == wallet) with
  | none => unknownEntity
  | some wc =>
    match changes.find? (fun c =>
        !(c.owner == wallet) && JsNum.strictNeqB c.change.signJ wc.change.signJ) with
    | some oc => oc.owner
    | none => unknownEntity

/-- JS `a || b` on strings: the empty string is falsy. -/
def jsStrOrElse (s alt : String) : String := if s = "" then alt else s

/-- `SolanaService.parseTransactionForTokenTransfer` (lines 765-802), the
scoped-mode synthesizer: emits at most one transfer for the scoped wallet. -/
def parseTransactionForTokenTransfer (tx : ParsedTx) (wallet mint : String) :
    Option TokenTransfer :=
  if !tx.hasMeta then none else
  match tx.blockTime with
  | none => none
  | some bt =>
    if bt = 0 then none
    else
      let pre := tx.preTokenBalances
      let post := tx.postTokenBalances
      let changes := calculateTokenBalanceChanges pre post mint
      if changes.isEmpty then none
      else
        match changes.find? (fun c => c.owner == wallet) with
        | none => none
        | some wc =>
          if wc.change.eqZeroB then none
          else
            let counterparty := findCounterparty changes wallet
            let dec := getTokenDecimalsFromBalances pre post mint
            some
              { signature := firstSignature tx.signatures
                timestamp := bt * 1000
                direction :=
                  if wc.change.gtZeroB then TransferDirection.received
                  else TransferDirection.sent
                amount := wc.change.abs.divPow10 dec
                fromAddress :=
                  if wc.change.gtZeroB then jsStrOrElse counterparty unknownEntity
                  else wallet
                toAddress :=
                  if wc.change.gtZeroB then wallet
                  else jsStrOrElse counterparty unknownEntity
                slot := tx.slot }

/-- The 0.1%-of-larger-side tolerance test of the greedy pairing loop
(lines 835-841). -/
def withinTolerance (s r : BalanceChange) : Bool :=
  let sA := s.change.abs
  let rA := r.change.abs
  let diff := (sA.sub rA).abs
  let tol := (JsNum.maxJ sA rA).mulQ (mkRat 1 1000)
  diff.leB tol

/-- The greedy sender/receiver pairing loop of
`SolanaService.parseTransactionForTokenTransfers` (lines 829-857):
`ps`/`pr` are the `processedSenders`/`processedReceivers` owner sets. -/
def greedyPairLoop (sig : String) (ts : ℤ) (slotN : ℕ) (dec : ℕ)
    (receivers : List BalanceChange) :
    List BalanceChange → List String → List String → List TokenTransfer
  | [], _, _ => []
  | s :: rest, ps, pr =>
    if ps.contains s.owner then greedyPairLoop sig ts slotN dec receivers rest ps pr
    else
      match receivers.find? (fun r => !(pr.contains r.owner) && withinTolerance s r) with
      | none => greedyPairLoop sig ts slotN dec receivers rest ps pr
      | some r =>
        { signature := sig, timestamp := ts, direction := TransferDirection.sent
          amount := s.change.abs.divPow10 dec, fromAddress := s.owner
          toAddress := r.owner, slot := slotN }
          :: greedyPairLoop sig ts slotN dec receivers rest (s.owner :: ps) (r.owner :: pr)

/-- `SolanaService.parseTransactionForTokenTransfers` (lines 804-860), the
unscoped greedy-pairing synthesizer. -/
def parseTransactionForTokenTransfers (tx : ParsedTx) (mint : String) :
    List TokenTransfer :=
  if !tx.hasMeta then [] else
  match tx.blockTime with
  | none => []
  | some bt =>
    if bt = 0 then []
    else
      let pre := tx.preTokenBalances
      let post := tx.postTokenBalances
      let changes := calculateTokenBalanceChanges pre post mint
      if changes.isEmpty then []
      else
        let dec := getTokenDecimalsFromBalances pre post mint
        let senders := changes.filter (fun c => c.change.ltZeroB)
        let receivers := changes.filter (fun c => c.change.gtZeroB)
        greedyPairLoop (firstSignature tx.signatures) (bt * 1000) tx.slot dec
          receivers senders [] []

/-- Textual rendering of an amount inside a dedup key (the template literal
stringifies the number). -/
def jsNumToString : JsNum → String
  | JsNum.nan => "NaN"
  | JsNum.num q => toString q

/-- The key separator of the dedup template literal. -/
def keySep : String := "-"

/-- The composite dedup key
`` `${signature}-${fromAddress}-${toAddress}-${amount}` `` (line 930). -/
def transferKey (t : TokenTransfer) : String :=
  t.signature ++ keySep ++ t.fromAddress ++ keySep ++ t.toAddress ++ keySep
    ++ jsNumToString t.amount

/-- The seen-set filter underlying `SolanaService.deduplicateTransfers`. -/
def dedupAux (seen : List String) : List TokenTransfer → List TokenTransfer
  | [] => []
  | t :: ts =>
    if transferKey t ∈ seen then dedupAux seen ts
    else t :: dedupAux (transferKey t :: seen) ts

/-- `SolanaService.deduplicateTransfers` (lines 927-937): keep the first
record seen for each composite key. -/
def deduplicateTransfers (transfers : List TokenTransfer) : List TokenTransfer :=
  dedupAux [] transfers

end SolanaService

namespace TransactionParser

/-- `TransactionParser.calculateTokenBalanceChanges` (src/config.ts,
lines 128-183): like the service variant, but additionally emits, for each
matching pre-balance whose account has no matching post-balance, a change of
`-preAmount` when the parsed pre-amount is positive (closure handling). -/
def calculateTokenBalanceChanges (pre post : List TokenBalance)
    (mint : String) : List BalanceChange :=
  let postChanges := post.filterMap (fun pb =>
    if pb.mint == mint then
      match pb.owner with
      | some o =>
        let preAmount : JsNum :=
          match preBalanceLookup pre mint pb.accountIndex with
          | some b => parseIntJs b.amount
          | none => JsNum.num 0
        let postAmount := parseIntJs pb.amount
        let change := postAmount.sub preAmount
        if change.neqZeroB then some ⟨o, change, toString pb.accountIndex⟩
        else none
      | none => none
    else none)
  let closureChanges := pre.filterMap (fun b =>
    if b.mint == mint then
      match b.owner with
      | some o =>
        if post.any (fun pb => pb.accountIndex == b.accountIndex && pb.mint == mint)
        then none
        else
          let preAmount := parseIntJs b.amount
          if preAmount.gtZeroB then some ⟨o, preAmount.neg, toString b.accountIndex⟩
          else none
      | none => none
    else none)
  postChanges ++ closureChanges

/-- The static well-known-token table `commonDecimals` of
`TransactionParser.getTokenDecimalsFromBalances` (src/config.ts,
lines 198-204): USDC, USDT, SOL, PUMP and BONK mints. -/
def commonDecimals (mintA : String) : Option ℕ :=
  if mintA = "EPjFWdd5AufqSSqeM2qN1xzybapC8G4wEGGkZwyTDt1v" then some 6
  else if mintA = "Es9vMFrzaCERmJfrF4H2FYD4KCoNkY11McCe8BenwNYB" then some 6
  else if mintA = "So11111111111111111111111111111111111111112" then some 9
  else if mintA = "pumpCmXqMfrsAkQ5r49WcJnRayYRqmXz6ae8H7H9Dfn" then some 6
  else if mintA = "DezXAZ8z7PnrnRJjz3wXBoRgixCa6xjnB7YaB1pPB263" then some 5
  else none

/-- `TransactionParser.getTokenDecimalsFromBalances` (src/config.ts,
lines 185-207): the decimals of the first snapshot entry matching the mint
(the `!== null` conjunct of the `find` predicate is vacuous in JS because
`undefined !== null`), else the static table via `commonDecimals[mint] || 6`,
else 6. -/
def getTokenDecimalsFromBalances (pre post : List TokenBalance)
    (mint : String) : ℕ :=
  match (pre ++ post).find? (fun b => b.mint == mint) with
  | some b =>
    match b.decimals with
    | some d => d
    | none =>
      match commonDecimals mint with
      | some d => if d = 0 then 6 else d
      | none => 6
  | none =>
    match commonDecimals mint with
    | some d => if d = 0 then 6 else d
    | none => 6

/-- `TransactionParser.parseTransactionForTokenTransfers` (src/config.ts,
lines 35-126): the N:1 / 1:N branches and the degenerate per-delta fallback,
each dropping candidates whose amount `isNaN` or is `<= 0`. -/
def parseTransactionForTokenTransfers (nowSec : ℤ) (tx : ParsedTx)
    (mint : String) : List TokenTransfer :=
  if !tx.hasMeta then [] else
  if firstSignature tx.signatures = "" then []
  else
    let signature := firstSignature tx.signatures
    let blockTime : ℤ :=
      match tx.blockTime with
      | some bt => if bt = 0 then nowSec else bt
      | none => nowSec
    let pre := tx.preTokenBalances
    let post := tx.postTokenBalances
    let changes := calculateTokenBalanceChanges pre post mint
    if changes.isEmpty then []
    else
      let dec := getTokenDecimalsFromBalances pre post mint
      let senders := changes.filter (fun c => c.change.ltZeroB)
      let receivers := changes.filter (fun c => c.change.gtZeroB)
      if senders.length = 1 && decide (1 < receivers.length) then
        match senders with
        | sender :: _ =>
          receivers.filterMap (fun r =>
            let amt := r.change.abs.divPow10 dec
            if amt.isNaNB || amt.leB (JsNum.num 0) then none
            else some
              { signature := signature, timestamp := blockTime * 1000
                direction := TransferDirection.sent, amount := amt
                fromAddress := sender.owner, toAddress := r.owner
                slot := tx.slot })
        | [] => []
      else if decide (1 < senders.length) && receivers.length = 1 then
        match receivers with
        | receiver :: _ =>
          senders.filterMap (fun s =>
            let amt := s.change.abs.divPow10 dec
            if amt.isNaNB || amt.leB (JsNum.num 0) then none
            else some
              { signature := signature, timestamp := blockTime * 1000
                direction := TransferDirection.received, amount := amt
                fromAddress := s.owner, toAddress := receiver.owner
                slot := tx.slot })
        | [] => []
      else
        changes.filterMap (fun c =>
          let amt := c.change.abs.divPow10 dec
          if amt.isNaNB || amt.leB (JsNum.num 0) then none
          else
            let isReceived := c.change.gtZeroB
            some
              { signature := signature, timestamp := blockTime * 1000
                direction :=
                  if isReceived then TransferDirection.received
                  else TransferDirection.sent
                amount := amt
                fromAddress := if isReceived then unknownEntity else c.owner
                toAddress := if isReceived then c.owner else unknownEntity
                slot := tx.slot })

end TransactionParser

namespace SolanaService

/-- The state of one `getTokenTransfersStream` call: the seen-key set, the
pending buffer, and the batches delivered to `onBatch` so far. -/
structure StreamState where
  seen : List String
  buffer : List TokenTransfer
  batches : List (List TokenTransfer)
deriving DecidableEq

/-- The `emit` closure of `getTokenTransfersStream` (lines 341-345): a
non-empty buffer is drained and delivered as one batch. -/
def streamEmit (s : StreamState) : StreamState :=
  if s.buffer.isEmpty then s
  else { seen := s.seen, buffer := [], batches := s.batches ++ [s.buffer] }

/-- The `push` closure of `getTokenTransfersStream` (lines 347-354): drop
already-seen keys and pre-cutoff timestamps, buffer the rest, flush at 10. -/
def streamPush (cutoffTimeMs : ℤ) (s : StreamState) (t : TokenTransfer) :
    StreamState :=
  if transferKey t ∈ s.seen then s
  else if t.timestamp < cutoffTimeMs then s
  else
    let s' : StreamState :=
      { seen := transferKey t :: s.seen, buffer := s.buffer ++ [t]
        batches := s.batches }
    if 10 ≤ s'.buffer.length then streamEmit s' else s'

/-- One event of a streaming run: a discovered record handed to `push`, or an
intermediate `emit()` at a strategy/block boundary. -/
inductive StreamEvent where
  | push (t : TokenTransfer)
  | flush
deriving DecidableEq

/-- Process one stream event. -/
def streamStep (cutoffTimeMs : ℤ) (s : StreamState) : StreamEvent → StreamState
  | StreamEvent.push t => streamPush cutoffTimeMs s t
  | StreamEvent.flush => streamEmit s

/-- A whole `getTokenTransfersStream` call: every discovered record goes
through `push`, and a final `emit()` runs on both the normal and the error
path (lines 356-449). -/
def runTokenTransfersStream (cutoffTimeMs : ℤ) (events : List StreamEvent) :
    StreamState :=
  streamEmit (events.foldl (streamStep cutoffTimeMs) ⟨[], [], []⟩)

/-- One entry of a Helius search result's `tokenTransfers` array. -/
structure HeliusTokenTransfer where
  mint : String
  tokenAmount : Option ℚ
  fromUserAccount : Option String
  fromTokenAccount : Option String
  toUserAccount : Option String
  toTokenAccount : Option String
deriving DecidableEq

/-- One transaction-like object returned by the Helius search API. -/
structure HeliusTx where
  signature : String
  blockTime : Option ℤ
  slot : ℕ
  tokenTransfers : List HeliusTokenTransfer
deriving DecidableEq

/-- JS `a || b` for an optional string against a fallback, with the empty
string falsy. -/
def jsStrOr (o : Option String) (alt : String) : String :=
  match o with
  | some s => if s = "" then alt else s
  | none => alt

/-- The records the Helius branch of `getTokenTransfersStream` builds and
hands to `push` for one search result (lines 403-418): the amount is
`Number(t.tokenAmount || 0)` with no positivity check. -/
def heliusStreamRecords (nowMs : ℤ) (tokenMint : String) (tx : HeliusTx) :
    List TokenTransfer :=
  let tsMs : ℤ :=
    match tx.blockTime with
    | some bt => if bt = 0 then 0 else bt * 1000
    | none => 0
  tx.tokenTransfers.filterMap (fun t =>
    if t.mint == tokenMint then
      some
        { signature := tx.signature
          timestamp := if tsMs = 0 then nowMs else tsMs
          direction := TransferDirection.sent
          amount := JsNum.num (t.tokenAmount.getD 0)
          fromAddress := jsStrOr t.fromUserAccount (jsStrOr t.fromTokenAccount unknownEntity)
          toAddress := jsStrOr t.toUserAccount (jsStrOr t.toTokenAccount unknownEntity)
          slot := tx.slot }
    else none)

/-- The three unscoped discovery strategies, in the source's order. -/
inductive DiscoveryStrategy where
  | indexedSearch
  | blockScan
  | sampling
deriving DecidableEq

/-- `SolanaService.getRecentTokenTransfersBySeconds` (lines 481-497), with
each strategy's would-be result passed explicitly: indexed search runs only
on a Helius RPC URL, block scan only when the earlier result was empty,
sampling only when both were.  The invoked strategies are recorded. -/
def getRecentTokenTransfersBySeconds (heliusConfigured : Bool)
    (heliusResults scanResults sampleResults : List TokenTransfer) :
    List DiscoveryStrategy × List TokenTransfer :=
  if heliusConfigured then
    if 0 < heliusResults.length then
      ([DiscoveryStrategy.indexedSearch], heliusResults)
    else if 0 < scanResults.length then
      ([DiscoveryStrategy.indexedSearch, DiscoveryStrategy.blockScan], scanResults)
    else
      ([DiscoveryStrategy.indexedSearch, DiscoveryStrategy.blockScan,
        DiscoveryStrategy.sampling], sampleResults)
  else
    if 0 < scanResults.length then ([DiscoveryStrategy.blockScan], scanResults)
    else ([DiscoveryStrategy.blockScan, DiscoveryStrategy.sampling], sampleResults)

end SolanaService

namespace HeliusService

/-- Upstream response to one HTTP attempt: 429, ok, another non-ok status, or
a network error (thrown by `fetch`). -/
inductive UpResp where
  | rate
  | ok
  | other
  | err
deriving DecidableEq

/-- The circuit-breaker state: the per-instance `rateLimitCount` and
`lastRateLimitTime` fields. -/
structure Breaker where
  count : ℕ
  lastTime : ℤ
deriving DecidableEq

/-- One observable action of `fetchWithRetry`: an HTTP request (tagged with
the response it received) or an awaited delay in milliseconds. -/
inductive FetchAct where
  | request (r : UpResp)
  | wait (ms : ℤ)
deriving DecidableEq

/-- How one `fetchWithRetry` call ends: a returned response or a thrown
error. -/
inductive FetchOut where
  | resp (r : UpResp)
  | exn
deriving DecidableEq

/-- The capped-exponential 429 backoff
`Math.min(1000 * Math.pow(2, attempt), 10000)` (src/unnamed/part_000,
line 47). -/
def backoffWait (attempt : ℕ) : ℤ := min (1000 * 2 ^ attempt) 10000

/-- The retry loop of `HeliusService.fetchWithRetry` (lines 39-63): `now` is
captured once at call entry; a 429 increments the counter and stamps `now`,
an ok response decrements it, other statuses return immediately, network
errors retry with a linear delay and are rethrown on the last attempt. -/
def retryLoop (now : ℤ) (responses : ℕ → UpResp) (maxRetries : ℕ) :
    ℕ → ℕ → Breaker → List FetchAct × Breaker × FetchOut
  | 0, _, st => ([], st, FetchOut.exn)
  | fuel + 1, attempt, st =>
    match responses attempt with
    | UpResp.rate =>
      let st' : Breaker := ⟨st.count + 1, now⟩
      if attempt < maxRetries then
        let rec' := retryLoop now responses maxRetries fuel (attempt + 1) st'
        (FetchAct.request UpResp.rate :: FetchAct.wait (backoffWait attempt) :: rec'.1,
          rec'.2)
      else ([FetchAct.request UpResp.rate], st', FetchOut.resp UpResp.rate)
    | UpResp.ok =>
      ([FetchAct.request UpResp.ok], ⟨st.count - 1, st.lastTime⟩,
        FetchOut.resp UpResp.ok)
    | UpResp.other =>
      ([FetchAct.request UpResp.other], st, FetchOut.resp UpResp.other)
    | UpResp.err =>
      if attempt = maxRetries then ([FetchAct.request UpResp.err], st, FetchOut.exn)
      else
        let rec' := retryLoop now responses maxRetries fuel (attempt + 1) st
        (FetchAct.request UpResp.err :: FetchAct.wait (1000 * attempt) :: rec'.1,
          rec'.2)

/-- `HeliusService.fetchWithRetry` (src/unnamed/part_000, lines 31-66): when
the breaker is tripped (`rateLimitCount >= 3` and the last 429 under 30 s
ago) the call first waits 30 s and resets the counter, then runs the retry
loop with attempts 1..maxRetries. -/
def fetchWithRetry (st : Breaker) (now : ℤ) (responses : ℕ → UpResp)
    (maxRetries : ℕ) : List FetchAct × Breaker × FetchOut :=
  if 3 ≤ st.count ∧ now - st.lastTime < 30000 then
    let r := retryLoop now responses maxRetries maxRetries 1 ⟨0, st.lastTime⟩
    (FetchAct.wait 30000 :: r.1, r.2)
  else retryLoop now responses maxRetries maxRetries 1 st

/-- A sequence of `fetchWithRetry` calls against one `HeliusService`
instance; each call carries its entry time and response oracle and the
breaker state threads through. -/
def runCalls (st : Breaker) :
    List (ℤ × (ℕ → UpResp)) → List (ℤ × List FetchAct) × Breaker
  | [] => ([], st)
  | (now, rs) :: rest =>
    let r := fetchWithRetry st now rs 3
    let r2 := runCalls r.2.1 rest
    ((now, r.1) :: r2.1, r2.2)

/-- The entry times of every rate-limited response in a call history. -/
def rateTimes (calls : List (ℤ × List FetchAct)) : List ℤ :=
  (calls.map (fun c => c.2.filterMap (fun a =>
    match a with
    | FetchAct.request UpResp.rate => some c.1
    | _ => none))).flatten

/-- Whether a call's trace issues an HTTP request before a 30-second
cooldown delay has been awaited. -/
def requestBeforeCooldown : List FetchAct → Bool
  | [] => false
  | FetchAct.wait w :: rest =>
    if w = 30000 then false else requestBeforeCooldown rest
  | FetchAct.request _ :: _ => true

/-- The number of HTTP requests in a trace. -/
def countRequests (tr : List FetchAct) : ℕ :=
  (tr.filter (fun a =>
    match a with
    | FetchAct.request _ => true
    | _ => false)).length

/-- The rolling-window circuit-breaker property exactly as the claim states
it: whenever a call starts after at least 3 rate-limited responses in the
preceding 30-second window, that call issues no request until a 30-second
cooldown has been awaited. -/
def rollingWindowBreaker : Prop :=
  ∀ (cs : List (ℤ × (ℕ → UpResp))) (i : ℕ) (now : ℤ) (tr : List FetchAct),
    ((runCalls ⟨0, 0⟩ cs).1.get? i) = some (now, tr) →
    3 ≤ ((rateTimes ((runCalls ⟨0, 0⟩ cs).1.take i)).filter
        (fun t => decide (now - t < 30000))).length →
    requestBeforeCooldown tr = false

end HeliusService

namespace SolanaService

/-- The Dedup & Merge Coordinator contract `merge(existing, incoming)`: the
accumulated list is re-deduplicated after appending a batch, as
`getTokenTransfers` does at line 312. -/
def mergeTransfers (existing incoming : List TokenTransfer) : List TokenTransfer :=
  deduplicateTransfers (existing ++ incoming)

end SolanaService

section DedupLemmas

open SolanaService

theorem dedupAux_congr (s s' : List String)
    (h : ∀ k, k ∈ s ↔ k ∈ s') (l : List TokenTransfer) :
    dedupAux s l = dedupAux s' l := by
  induction l generalizing s s' with
  | nil => rfl
  | cons t ts ih =>
    simp only [dedupAux]
    by_cases hk : transferKey t ∈ s
    · rw [if_pos hk, if_pos ((h _).mp hk), ih s s' h]
    · rw [if_neg hk, if_neg (fun hx => hk ((h _).mpr hx)),
        ih (transferKey t :: s) (transferKey t :: s') ?_]
      intro k
      simp only [List.mem_cons]
      exact or_congr Iff.rfl (h k)

theorem dedupAux_append (s : List String) (l1 l2 : List TokenTransfer) :
    dedupAux s (l1 ++ l2) =
      dedupAux s l1 ++ dedupAux (l1.map transferKey ++ s) l2 := by
  induction l1 generalizing s with
  | nil => simp [dedupAux]
  | cons t ts ih =>
    simp only [List.cons_append, dedupAux, List.map_cons, List.append_eq]
    by_cases hk : transferKey t ∈ s
    · rw [if_pos hk, if_pos hk, ih s]
      congr 1
      apply dedupAux_congr
      intro k
      simp only [List.cons_append, List.mem_cons, List.mem_append]
      constructor
      · tauto
      · intro hx
        rcases hx with rfl | hx
        · exact Or.inr hk
        · exact hx
    · rw [if_neg hk, if_neg hk, ih (transferKey t :: s), List.cons_append]
      congr 2
      apply dedupAux_congr
      intro k
      simp only [List.cons_append, List.mem_cons, List.mem_append]
      tauto

theorem dedupAux_eq_nil (s : List String) (l : List TokenTransfer)
    (h : ∀ t ∈ l, transferKey t ∈ s) : dedupAux s l = [] := by
  induction l with
  | nil => rfl
  | cons t ts ih =>
    simp only [dedupAux, if_pos (h t (List.mem_cons_self t ts))]
    exact ih (fun x hx => h x (List.mem_cons_of_mem t hx))

theorem key_mem_dedupAux (s : List String) (l : List TokenTransfer) :
    ∀ t ∈ l, transferKey t ∈ s ∨ transferKey t ∈ (dedupAux s l).map transferKey := by
  induction l generalizing s with
  | nil => intro t ht; cases ht
  | cons x xs ih =>
    intro t ht
    simp only [dedupAux]
    by_cases hk : transferKey x ∈ s
    · rw [if_pos hk]
      rcases List.mem_cons.mp ht with rfl | ht'
      · exact Or.inl hk
      · exact ih s t ht'
    · rw [if_neg hk]
      rcases List.mem_cons.mp ht with rfl | ht'
      · exact Or.inr (by simp)
      · rcases ih (transferKey x :: s) t ht' with hx | hx
        · rcases List.mem_cons.mp hx with he | he
          · exact Or.inr (by simp [he])
          · exact Or.inl he
        · exact Or.inr (by simp [hx])

theorem dedupAux_sublist (s : List String) (l : List TokenTransfer) :
    (dedupAux s l).Sublist l := by
  induction l generalizing s with
  | nil => exact List.Sublist.refl []
  | cons t ts ih =>
    simp only [dedupAux]
    by_cases hk : transferKey t ∈ s
    · rw [if_pos hk]
      exact (ih s).cons t
    · rw [if_neg hk]
      exact (ih (transferKey t :: s)).cons₂ t

theorem dedupAux_keys_nodup (s : List String) (l : List TokenTransfer) :
    ((dedupAux s l).map transferKey).Nodup ∧
      ∀ k ∈ (dedupAux s l).map transferKey, k ∉ s := by
  induction l generalizing s with
  | nil => exact ⟨List.nodup_nil, by intro k hk; cases hk⟩
  | cons t ts ih =>
    simp only [dedupAux]
    by_cases hk : transferKey t ∈ s
    · rw [if_pos hk]
      exact ih s
    · rw [if_neg hk]
      obtain ⟨hnd, hdis⟩ := ih (transferKey t :: s)
      refine ⟨?_, ?_⟩
      · simp only [List.map_cons, List.nodup_cons]
        refine ⟨fun hx => ?_, hnd⟩
        exact (hdis _ hx) (List.mem_cons_self _ _)
      · intro k hkmem
        simp only [List.map_cons, List.mem_cons] at hkmem
        rcases hkmem with rfl | hkmem
        · exact hk
        · intro hks
          exact (hdis k hkmem) (List.mem_cons_of_mem _ hks)

theorem dedupAux_fixed (s : List String) (l : List TokenTransfer)
    (hnd : (l.map transferKey).Nodup)
    (hdis : ∀ k ∈ l.map transferKey, k ∉ s) :
    dedupAux s l = l := by
  induction l generalizing s with
  | nil => rfl
  | cons t ts ih =>
    simp only [List.map_cons, List.nodup_cons] at hnd
    simp only [dedupAux]
    rw [if_neg (hdis (transferKey t) (by simp))]
    congr 1
    refine ih (transferKey t :: s) hnd.2 ?_
    intro k hkmem
    simp only [List.mem_cons]
    intro hx
    rcases hx with rfl | hx
    · exact hnd.1 hkmem
    · exact hdis k (by simp [hkmem]) hx

end DedupLemmas

/-- C6: the dedup merge is idempotent — replaying the same batch produces no
growth; records are keyed by the composite `(signature, from, to, amount)`
key, the surviving records are a subsequence of the input (exact duplicates
dropped), their keys are pairwise distinct, and every input record's key
survives (the first-seen record wins). -/
theorem dedup_merge_idempotent (batch : List TokenTransfer) :
    SolanaService.mergeTransfers (SolanaService.mergeTransfers [] batch) batch =
      SolanaService.mergeTransfers [] batch
    ∧ ((SolanaService.deduplicateTransfers batch).map SolanaService.transferKey).Nodup
    ∧ (SolanaService.deduplicateTransfers batch).Sublist batch
    ∧ ∀ t ∈ batch, SolanaService.transferKey t ∈
        (SolanaService.deduplicateTransfers batch).map SolanaService.transferKey := by
  have hnil : SolanaService.mergeTransfers [] batch =
      SolanaService.deduplicateTransfers batch := by
    simp [SolanaService.mergeTransfers]
  have hkeys : ∀ t ∈ batch, SolanaService.transferKey t ∈
      (SolanaService.deduplicateTransfers batch).map SolanaService.transferKey := by
    intro t ht
    rcases key_mem_dedupAux [] batch t ht with hx | hx
    · cases hx
    · exact hx
  refine ⟨?_, (dedupAux_keys_nodup [] batch).1, dedupAux_sublist [] batch, hkeys⟩
  rw [hnil]
  show SolanaService.deduplicateTransfers
      (SolanaService.deduplicateTransfers batch ++ batch) =
    SolanaService.deduplicateTransfers batch
  unfold SolanaService.deduplicateTransfers
  rw [dedupAux_append]
  have h1 : SolanaService.dedupAux [] (SolanaService.dedupAux [] batch) =
      SolanaService.dedupAux [] batch := by
    refine dedupAux_fixed [] _ (dedupAux_keys_nodup [] batch).1 ?_
    intro k _ hk
    cases hk
  rw [h1]
  have h2 : SolanaService.dedupAux
      ((SolanaService.dedupAux [] batch).map SolanaService.transferKey ++ [])
      batch = [] := by
    refine dedupAux_eq_nil _ _ ?_
    intro t ht
    rcases key_mem_dedupAux [] batch t ht with hx | hx
    · cases hx
    · simp [hx]
  rw [h2, List.append_nil]

/-- C6 witness: replaying a concrete batch with an exact duplicate neither
grows the merged set nor loses the duplicated record's key. -/
theorem dedup_merge_idempotent_witness :
    (SolanaService.mergeTransfers
        (SolanaService.mergeTransfers []
          [⟨"s1", 5, TransferDirection.sent, JsNum.num 3, "a", "b", 0⟩,
           ⟨"s1", 5, TransferDirection.sent, JsNum.num 3, "a", "b", 0⟩])
        [⟨"s1", 5, TransferDirection.sent, JsNum.num 3, "a", "b", 0⟩,
         ⟨"s1", 5, TransferDirection.sent, JsNum.num 3, "a", "b", 0⟩] =
      SolanaService.mergeTransfers []
        [⟨"s1", 5, TransferDirection.sent, JsNum.num 3, "a", "b", 0⟩,
         ⟨"s1", 5, TransferDirection.sent, JsNum.num 3, "a", "b", 0⟩])
    ∧ SolanaService.transferKey
        ⟨"s1", 5, TransferDirection.sent, JsNum.num 3, "a", "b", 0⟩ ∈
      (SolanaService.deduplicateTransfers
        [⟨"s1", 5, TransferDirection.sent, JsNum.num 3, "a", "b", 0⟩,
         ⟨"s1", 5, TransferDirection.sent, JsNum.num 3, "a", "b", 0⟩]).map
        SolanaService.transferKey :=
  ⟨(dedup_merge_idempotent _).1,
    (dedup_merge_idempotent _).2.2.2 _ (by decide)⟩

section StreamLemmas

open SolanaService

/-- Invariant threaded through a streaming run: every record delivered or
buffered is at or after the cutoff, their keys are pairwise distinct and all
recorded in the seen set. -/
def streamDeliveredInv (cutoffTimeMs : ℤ) (s : StreamState) : Prop :=
  (∀ t ∈ s.batches.flatten ++ s.buffer, cutoffTimeMs ≤ t.timestamp)
  ∧ ((s.batches.flatten ++ s.buffer).map transferKey).Nodup
  ∧ (∀ t ∈ s.batches.flatten ++ s.buffer, transferKey t ∈ s.seen)

theorem streamEmit_delivered (s : StreamState) :
    (streamEmit s).batches.flatten ++ (streamEmit s).buffer =
      s.batches.flatten ++ s.buffer ∧ (streamEmit s).seen = s.seen := by
  unfold streamEmit
  by_cases h : s.buffer.isEmpty
  · rw [if_pos h]
    exact ⟨rfl, rfl⟩
  · rw [if_neg h]
    refine ⟨?_, rfl⟩
    simp

theorem streamEmit_buffer (s : StreamState) : (streamEmit s).buffer = [] := by
  unfold streamEmit
  by_cases h : s.buffer.isEmpty
  · rw [if_pos h]
    exact List.isEmpty_iff.mp h
  · rw [if_neg h]

theorem streamDeliveredInv_emit (cutoffTimeMs : ℤ) (s : StreamState)
    (h : streamDeliveredInv cutoffTimeMs s) :
    streamDeliveredInv cutoffTimeMs (streamEmit s) := by
  obtain ⟨hd, hs⟩ := streamEmit_delivered s
  exact ⟨by rw [hd]; exact h.1, by rw [hd]; exact h.2.1, by rw [hd, hs]; exact h.2.2⟩

theorem streamDeliveredInv_push (cutoffTimeMs : ℤ) (s : StreamState)
    (t : TokenTransfer) (h : streamDeliveredInv cutoffTimeMs s) :
    streamDeliveredInv cutoffTimeMs (streamPush cutoffTimeMs s t) := by
  unfold streamPush
  by_cases hseen : transferKey t ∈ s.seen
  · rw [if_pos hseen]
    exact h
  · rw [if_neg hseen]
    by_cases hts : t.timestamp < cutoffTimeMs
    · rw [if_pos hts]
      exact h
    · rw [if_neg hts]
      have hcore : streamDeliveredInv cutoffTimeMs
          { seen := transferKey t :: s.seen, buffer := s.buffer ++ [t]
            batches := s.batches } := by
        obtain ⟨h1, h2, h3⟩ := h
        have hdeq : s.batches.flatten ++ (s.buffer ++ [t]) =
            (s.batches.flatten ++ s.buffer) ++ [t] := by
          rw [List.append_assoc]
        refine ⟨?_, ?_, ?_⟩
        · intro x hx
          rw [hdeq] at hx
          rcases List.mem_append.mp hx with hx | hx
          · exact h1 x hx
          · rcases List.mem_singleton.mp hx with rfl
            exact not_lt.mp hts
        · show ((s.batches.flatten ++ (s.buffer ++ [t])).map transferKey).Nodup
          rw [hdeq, List.map_append]
          rw [List.nodup_append]
          refine ⟨h2, List.nodup_singleton _, ?_⟩
          intro k hk hk'
          simp only [List.map_cons, List.map_nil, List.mem_singleton] at hk'
          subst hk'
          rcases List.mem_map.mp hk with ⟨x, hxmem, hxkey⟩
          exact hseen (hxkey ▸ h3 x hxmem)
        · intro x hx
          rw [hdeq] at hx
          rcases List.mem_append.mp hx with hx | hx
          · exact List.mem_cons_of_mem _ (h3 x hx)
          · rcases List.mem_singleton.mp hx with rfl
            exact List.mem_cons_self _ _
      by_cases hlen : 10 ≤ (s.buffer ++ [t]).length
      · rw [if_pos hlen]
        exact streamDeliveredInv_emit cutoffTimeMs _ hcore
      · rw [if_neg hlen]
        exact hcore

theorem streamDeliveredInv_foldl (cutoffTimeMs : ℤ) (events : List StreamEvent) :
    ∀ s : StreamState, streamDeliveredInv cutoffTimeMs s →
      streamDeliveredInv cutoffTimeMs (events.foldl (streamStep cutoffTimeMs) s) := by
  induction events with
  | nil => intro s hs; exact hs
  | cons e es ih =>
    intro s hs
    rw [List.foldl_cons]
    refine ih _ ?_
    cases e with
    | push t => exact streamDeliveredInv_push cutoffTimeMs s t hs
    | flush => exact streamDeliveredInv_emit cutoffTimeMs s hs

/-- C10: streaming delivery invariant — over one whole
`getTokenTransfersStream` run, every record delivered to `onBatch` has
timestamp at or after the cutoff (filtered per record by `push`), and no two
records delivered across all batches share the composite dedup key, because
every record passes the single seen-set and cutoff check before being
buffered. -/
theorem stream_delivery_cutoff_and_dedup (cutoffTimeMs : ℤ)
    (events : List SolanaService.StreamEvent) :
    (∀ b ∈ (SolanaService.runTokenTransfersStream cutoffTimeMs events).batches,
      ∀ t ∈ b, cutoffTimeMs ≤ t.timestamp)
    ∧ (((SolanaService.runTokenTransfersStream cutoffTimeMs events).batches.flatten).map
        SolanaService.transferKey).Nodup := by
  have hinit : streamDeliveredInv cutoffTimeMs ⟨[], [], []⟩ := by
    refine ⟨?_, ?_, ?_⟩ <;> simp [streamDeliveredInv]
  have hfold := streamDeliveredInv_foldl cutoffTimeMs events _ hinit
  have hfin : streamDeliveredInv cutoffTimeMs
      (SolanaService.runTokenTransfersStream cutoffTimeMs events) :=
    streamDeliveredInv_emit cutoffTimeMs _ hfold
  obtain ⟨h1, h2, _⟩ := hfin
  have hbuf := streamEmit_buffer
    (events.foldl (SolanaService.streamStep cutoffTimeMs) ⟨[], [], []⟩)
  have hbuf' : (SolanaService.runTokenTransfersStream cutoffTimeMs events).buffer = [] := hbuf
  constructor
  · intro b hb t ht
    refine h1 t (List.mem_append_left _ ?_)
    exact List.mem_flatten.mpr ⟨b, hb, ht⟩
  · rw [hbuf', List.append_nil] at h2
    exact h2

end StreamLemmas

/-- C10 witness: a concrete run delivering one record at timestamp 5 with
cutoff 0 — the delivered record is at or after the cutoff and the delivered
keys are distinct. -/
theorem stream_delivery_cutoff_and_dedup_witness :
    (0:ℤ) ≤ (⟨"s", 5, TransferDirection.sent, JsNum.num 1, "a", "b", 0⟩ :
      TokenTransfer).timestamp
    ∧ (((SolanaService.runTokenTransfersStream 0
        [SolanaService.StreamEvent.push
          ⟨"s", 5, TransferDirection.sent, JsNum.num 1, "a", "b", 0⟩]).batches.flatten).map
        SolanaService.transferKey).Nodup :=
  ⟨(stream_delivery_cutoff_and_dedup 0
      [SolanaService.StreamEvent.push
        ⟨"s", 5, TransferDirection.sent, JsNum.num 1, "a", "b", 0⟩]).1
      [⟨"s", 5, TransferDirection.sent, JsNum.num 1, "a", "b", 0⟩] (by decide)
      ⟨"s", 5, TransferDirection.sent, JsNum.num 1, "a", "b", 0⟩ (by decide),
    (stream_delivery_cutoff_and_dedup 0
      [SolanaService.StreamEvent.push
        ⟨"s", 5, TransferDirection.sent, JsNum.num 1, "a", "b", 0⟩]).2⟩

/-- The mint used by the concrete scenarios. -/
def mintX : String := "X"

/-- Scenario C's closed account owner. -/
def entityCarol : String := "Carol"

/-- Scenario C's pre-transaction raw amount. -/
def rawAmt250 : String := "250"

/-- Scenario C's pre-snapshot: account 3 owned by Carol holding 250 raw units
of the queried mint, with no corresponding post-snapshot. -/
def carolPreBalance : TokenBalance := ⟨3, mintX, some entityCarol, rawAmt250, some 0⟩

/-- C1 counterexample: the claim, stated for the
`SolanaService.calculateTokenBalanceChanges` extractor variant that the
claim's sources also cite, is false — on Scenario C's input (pre-snapshot of
250 for Carol, empty post list) that variant emits no BalanceDelta at all,
because it has no closure handling. -/
theorem closure_claim_fails_for_service_extractor :
    ¬ (∀ (pre post : List TokenBalance) (mint : String) (b : TokenBalance) (a : ℤ),
        b ∈ pre → b.mint = mint → b.owner.isSome = true →
        parseIntJs b.amount = JsNum.num (a : ℚ) → 0 < a →
        (∀ pb ∈ post, pb.accountIndex ≠ b.accountIndex) →
        ∃ c ∈ SolanaService.calculateTokenBalanceChanges pre post mint,
          some c.owner = b.owner ∧ c.change = JsNum.num (-(a : ℚ))) := by
  intro h
  obtain ⟨c, hc, -⟩ := h [carolPreBalance] [] mintX carolPreBalance 250
    (by decide) (by decide) (by decide) (by decide) (by decide)
    (fun pb hpb => absurd hpb (List.not_mem_nil pb))
  have hnil : SolanaService.calculateTokenBalanceChanges [carolPreBalance] [] mintX = [] := by
    decide
  rw [hnil] at hc
  exact absurd hc (List.not_mem_nil c)

/-- C1 (amended): closure handling holds for the
`TransactionParser.calculateTokenBalanceChanges` extractor variant of
src/config.ts — if entity E has a pre-snapshot for the token whose raw
amount parses to `a > 0` and no post-snapshot shares its account index, a
BalanceDelta for E with signed change `-a` is emitted.  The
`SolanaService` variant omits closure handling entirely. -/
theorem closure_full_withdrawal_parser_extractor
    (pre post : List TokenBalance) (mint : String) (b : TokenBalance) (a : ℤ)
    (hmem : b ∈ pre) (hmint : b.mint = mint) (hown : b.owner.isSome = true)
    (hparse : parseIntJs b.amount = JsNum.num (a : ℚ)) (hpos : 0 < a)
    (hnopost : ∀ pb ∈ post, pb.accountIndex ≠ b.accountIndex) :
    ∃ c ∈ TransactionParser.calculateTokenBalanceChanges pre post mint,
      some c.owner = b.owner ∧ c.change = JsNum.num (-(a : ℚ)) := by
  obtain ⟨o, ho⟩ := Option.isSome_iff_exists.mp hown
  refine ⟨⟨o, JsNum.num (-(a : ℚ)), toString b.accountIndex⟩, ?_, by rw [ho], rfl⟩
  unfold TransactionParser.calculateTokenBalanceChanges
  refine List.mem_append_right _ ?_
  refine List.mem_filterMap.mpr ⟨b, hmem, ?_⟩
  have hany : (post.any fun pb =>
      pb.accountIndex == b.accountIndex && pb.mint == mint) = false := by
    rw [List.any_eq_false]
    intro pb hpb
    simp only [Bool.and_eq_true, beq_iff_eq, not_and]
    intro hidx
    exact absurd hidx (hnopost pb hpb)
  have hq : (0 : ℚ) < (a : ℚ) := by exact_mod_cast hpos
  simp only [hmint, beq_self_eq_true, if_true, ho, hany, hparse,
    JsNum.gtZeroB, JsNum.neg, Bool.false_eq_true, if_false,
    decide_eq_true_eq, hq, if_true]

/-- C1 witness: Scenario C — Carol's pre-snapshot of 250 with no
post-snapshot yields a BalanceDelta of -250 for Carol from the config.ts
extractor. -/
theorem closure_full_withdrawal_parser_extractor_witness :
    ∃ c ∈ TransactionParser.calculateTokenBalanceChanges [carolPreBalance] [] mintX,
      some c.owner = carolPreBalance.owner ∧
        c.change = JsNum.num (-((250 : ℤ) : ℚ)) :=
  closure_full_withdrawal_parser_extractor [carolPreBalance] [] mintX
    carolPreBalance 250 (by decide) (by decide) (by decide) (by decide)
    (by decide) (fun pb hpb => absurd hpb (List.not_mem_nil pb))

/-- The SOL mint, which the static table maps to 9 decimals. -/
def solMint : String := "So11111111111111111111111111111111111111112"

/-- The Decimal Normalizer precedence exactly as the claim states it: an
explicit decimals field on the first snapshot entry matching the token type
wins; otherwise the static well-known-token table is consulted; otherwise
the result is 6. -/
def decimalsPerClaim (pre post : List TokenBalance) (mint : String) : ℕ :=
  match (pre ++ post).find? (fun b => b.mint == mint) with
  | some b =>
    match b.decimals with
    | some d => d
    | none =>
      match TransactionParser.commonDecimals mint with
      | some d => d
      | none => 6
  | none =>
    match TransactionParser.commonDecimals mint with
    | some d => d
    | none => 6

theorem commonDecimals_ne_zero (mint : String) (d : ℕ)
    (h : TransactionParser.commonDecimals mint = some d) : d ≠ 0 := by
  unfold TransactionParser.commonDecimals at h
  split_ifs at h <;> simp_all <;> omega

/-- C7 counterexample: the claim's precedence chain is false of the
`SolanaService.getTokenDecimalsFromBalances` variant that the claim's
sources also cite — with no matching snapshot entry and the SOL mint, that
variant returns 6 while the claimed chain consults the static table and
returns 9. -/
theorem decimal_fallback_claim_fails_for_service :
    ¬ (∀ (pre post : List TokenBalance) (mint : String),
        SolanaService.getTokenDecimalsFromBalances pre post mint =
          decimalsPerClaim pre post mint) := by
  intro h
  have hx := h [] [] solMint
  have h1 : SolanaService.getTokenDecimalsFromBalances [] [] solMint = 6 := by decide
  have h2 : decimalsPerClaim [] [] solMint = 9 := by decide
  rw [h1, h2] at hx
  exact absurd hx (by decide)

/-- C7 (amended): the `TransactionParser.getTokenDecimalsFromBalances`
variant of src/config.ts resolves decimals exactly by the claimed
precedence: an explicit decimals field on the first mint-matching snapshot
entry wins (even when the mint is in the static table with another value),
otherwise the static table, otherwise 6.  The `SolanaService` variant never
consults the table. -/
theorem decimal_fallback_parser_matches_claim
    (pre post : List TokenBalance) (mint : String) :
    TransactionParser.getTokenDecimalsFromBalances pre post mint =
      decimalsPerClaim pre post mint := by
  have htab : ∀ o : Option ℕ, (∀ d, o = some d → d ≠ 0) →
      (match o with | some d => if d = 0 then 6 else d | none => 6) =
        (match o with | some d => d | none => 6) := by
    intro o ho
    cases o with
    | none => rfl
    | some d => exact if_neg (ho d rfl)
  have hcd : ∀ d, TransactionParser.commonDecimals mint = some d → d ≠ 0 :=
    fun d h => commonDecimals_ne_zero mint d h
  unfold TransactionParser.getTokenDecimalsFromBalances decimalsPerClaim
  cases (pre ++ post).find? (fun b => b.mint == mint) with
  | none => exact htab _ hcd
  | some b =>
    show (match b.decimals with
        | some d => d
        | none =>
          match TransactionParser.commonDecimals mint with
          | some d => if d = 0 then 6 else d
          | none => 6) =
      (match b.decimals with
        | some d => d
        | none =>
          match TransactionParser.commonDecimals mint with
          | some d => d
          | none => 6)
    cases b.decimals with
    | some d => rfl
    | none => exact htab _ hcd

/-- A concrete transfer record for strategy-result lists. -/
def sampleRecord : TokenTransfer :=
  ⟨"t", 1, TransferDirection.sent, JsNum.num 2, "u", "v", 3⟩

/-- C8: in the unscoped non-streaming query path (with the indexed-search
strategy available), strategies run in the fixed order indexed-search,
block-scan, sampling; each later strategy is invoked only when every
earlier one returned zero results, and the returned list is exactly the
first non-empty strategy's output, never a merge. -/
theorem strategy_fallthrough_order
    (heliusResults scanResults sampleResults : List TokenTransfer) :
    (heliusResults ≠ [] →
      SolanaService.getRecentTokenTransfersBySeconds true heliusResults
          scanResults sampleResults =
        ([SolanaService.DiscoveryStrategy.indexedSearch], heliusResults))
    ∧ (heliusResults = [] → scanResults ≠ [] →
      SolanaService.getRecentTokenTransfersBySeconds true heliusResults
          scanResults sampleResults =
        ([SolanaService.DiscoveryStrategy.indexedSearch,
          SolanaService.DiscoveryStrategy.blockScan], scanResults))
    ∧ (heliusResults = [] → scanResults = [] →
      SolanaService.getRecentTokenTransfersBySeconds true heliusResults
          scanResults sampleResults =
        ([SolanaService.DiscoveryStrategy.indexedSearch,
          SolanaService.DiscoveryStrategy.blockScan,
          SolanaService.DiscoveryStrategy.sampling], sampleResults))
    ∧ (SolanaService.DiscoveryStrategy.blockScan ∈
        (SolanaService.getRecentTokenTransfersBySeconds true heliusResults
          scanResults sampleResults).1 → heliusResults = [])
    ∧ (SolanaService.DiscoveryStrategy.sampling ∈
        (SolanaService.getRecentTokenTransfersBySeconds true heliusResults
          scanResults sampleResults).1 →
        heliusResults = [] ∧ scanResults = [])
    ∧ ((SolanaService.getRecentTokenTransfersBySeconds true heliusResults
          scanResults sampleResults).2 = heliusResults
      ∨ (SolanaService.getRecentTokenTransfersBySeconds true heliusResults
          scanResults sampleResults).2 = scanResults
      ∨ (SolanaService.getRecentTokenTransfersBySeconds true heliusResults
          scanResults sampleResults).2 = sampleResults) := by
  by_cases hH : heliusResults = []
  · by_cases hS : scanResults = []
    · subst hH
      subst hS
      refine ⟨fun hx => absurd rfl hx, fun _ hx => absurd rfl hx, fun _ _ => ?_,
        fun _ => rfl, fun _ => ⟨rfl, rfl⟩, ?_⟩
      · simp [SolanaService.getRecentTokenTransfersBySeconds]
      · simp [SolanaService.getRecentTokenTransfersBySeconds]
    · subst hH
      have hlen : 0 < scanResults.length := List.length_pos.mpr hS
      refine ⟨fun hx => absurd rfl hx, fun _ _ => ?_, fun _ hx => absurd hx hS,
        fun _ => rfl, fun hmem => ?_, ?_⟩
      · simp [SolanaService.getRecentTokenTransfersBySeconds, hlen]
      · exfalso
        simp [SolanaService.getRecentTokenTransfersBySeconds, hlen] at hmem
      · simp [SolanaService.getRecentTokenTransfersBySeconds, hlen]
  · have hlen : 0 < heliusResults.length := List.length_pos.mpr hH
    refine ⟨fun _ => ?_, fun hx => absurd hx hH, fun hx => absurd hx hH,
      fun hmem => ?_, fun hmem => ?_, ?_⟩
    · simp [SolanaService.getRecentTokenTransfersBySeconds, hlen]
    · exfalso
      simp [SolanaService.getRecentTokenTransfersBySeconds, hlen] at hmem
    · exfalso
      simp [SolanaService.getRecentTokenTransfersBySeconds, hlen] at hmem
    · simp [SolanaService.getRecentTokenTransfersBySeconds, hlen]

/-- C8 witness: with an empty indexed-search result and a non-empty
block-scan result, exactly the block-scan output is returned and both
strategies (and no more) were invoked. -/
theorem strategy_fallthrough_order_witness :
    SolanaService.getRecentTokenTransfersBySeconds true [] [sampleRecord] [] =
      ([SolanaService.DiscoveryStrategy.indexedSearch,
        SolanaService.DiscoveryStrategy.blockScan], [sampleRecord]) :=
  (strategy_fallthrough_order [] [sampleRecord] []).2.1 rfl (by decide)

/-- The owning entity of the malformed-amount scenario. -/
def entityA : String := "A"

/-- A non-numeric raw amount string. -/
def rawNonNumeric : String := "abc"

/-- A well-formed raw amount string of value 5. -/
def rawAmt5 : String := "5"

/-- The signature of the malformed-amount scenario's transaction. -/
def sigNan : String := "sig"

/-- Pre-snapshot whose raw amount is non-numeric. -/
def preNanBalances : List TokenBalance := [⟨1, mintX, some entityA, rawNonNumeric, some 0⟩]

/-- Post-snapshot with a well-formed amount for the same account. -/
def postNanBalances : List TokenBalance := [⟨1, mintX, some entityA, rawAmt5, some 0⟩]

/-- The malformed-amount transaction. -/
def txNan : ParsedTx := ⟨true, some 123, preNanBalances, postNanBalances, [sigNan], 0⟩

/-- C2: evaluated at the failing input (pre amount "abc", post amount "5"),
both extractor variants materialize a BalanceDelta whose signed change is
`NaN` — the unparsable amount is parsed to `NaN`, not treated as 0, and the
candidate survives the `change !== 0` test — and the scoped synthesizer then
emits a TransferRecord whose amount is `NaN`. -/
theorem nonnumeric_raw_amount_propagates_nan :
    SolanaService.calculateTokenBalanceChanges preNanBalances postNanBalances mintX =
      [⟨entityA, JsNum.nan, toString (1 : ℕ)⟩]
    ∧ TransactionParser.calculateTokenBalanceChanges preNanBalances postNanBalances mintX =
      [⟨entityA, JsNum.nan, toString (1 : ℕ)⟩]
    ∧ SolanaService.parseTransactionForTokenTransfer txNan entityA mintX =
      some ⟨sigNan, 123000, TransferDirection.sent, JsNum.nan, entityA, unknownEntity, 0⟩
    ∧ parseIntJs rawNonNumeric = JsNum.nan :=
  ⟨by decide, by decide, by decide, by decide⟩

/-- The Helius search signature of the zero-amount scenario. -/
def sigHelius : String := "hsig"

/-- Sender of the zero-amount Helius entry. -/
def entityF : String := "F"

/-- Receiver of the zero-amount Helius entry. -/
def entityT : String := "T"

/-- A Helius search result whose only `tokenTransfers` entry matches the
mint but carries no `tokenAmount`. -/
def heliusTxMissingAmount : SolanaService.HeliusTx :=
  ⟨sigHelius, some 1, 7, [⟨mintX, none, some entityF, none, some entityT, none⟩]⟩

/-- The record the stream's Helius branch builds for that entry: amount
`Number(undefined || 0) = 0`. -/
def zeroAmountRecord : TokenTransfer :=
  ⟨sigHelius, 1000, TransferDirection.sent, JsNum.num 0, entityF, entityT, 7⟩

/-- C3: evaluated at the failing input, the indexed-search branch of
`getTokenTransfersStream` builds a TransferRecord with amount 0 from a
Helius entry lacking `tokenAmount`, and `push` delivers it to `onBatch`
unchecked — so an amount `<= 0` record is emitted on that synthesis path
(the dedicated `HeliusService` variant drops exactly such candidates). -/
theorem helius_stream_path_emits_zero_amount :
    SolanaService.heliusStreamRecords 99999 mintX heliusTxMissingAmount =
      [zeroAmountRecord]
    ∧ zeroAmountRecord.amount = JsNum.num 0
    ∧ (SolanaService.runTokenTransfersStream 0
        [SolanaService.StreamEvent.push zeroAmountRecord]).batches =
      [[zeroAmountRecord]] :=
  ⟨by decide, by decide, by decide⟩

theorem find_congr_local {α : Type} (p q : α → Bool) (l : List α)
    (h : ∀ x ∈ l, p x = q x) : l.find? p = l.find? q := by
  induction l with
  | nil => rfl
  | cons a t ih =>
    simp only [List.find?]
    rw [h a (List.mem_cons_self a t)]
    cases hq : q a with
    | false => exact ih (fun x hx => h x (List.mem_cons_of_mem a hx))
    | true => rfl

theorem isEmpty_false_of_mem {α : Type} {l : List α} {x : α} (hx : x ∈ l) :
    l.isEmpty = false := by
  cases l with
  | nil => cases hx
  | cons a t => rfl

/-- Opposite-sign test at the claim's level: a finite change of sign opposite
to the scoped change `q`. -/
def oppositeSignB (x : JsNum) (q : ℚ) : Bool :=
  match x with
  | JsNum.nan => false
  | JsNum.num p => decide ((0 < p ∧ q < 0) ∨ (p < 0 ∧ 0 < q))

/-- The first BalanceDelta of another entity whose change has sign opposite
to the scoped change, as the claim describes the counterparty. -/
def firstOppositeDelta (changes : List BalanceChange) (wallet : String) (q : ℚ) :
    Option BalanceChange :=
  changes.find? (fun c => !(c.owner == wallet) && oppositeSignB c.change q)

/-- The claimed counterparty: the first opposite-sign delta's owner, falling
back to `Unknown` when none exists. -/
def counterpartyName (changes : List BalanceChange) (wallet : String) (q : ℚ) :
    String :=
  match firstOppositeDelta changes wallet q with
  | some oc => oc.owner
  | none => unknownEntity

theorem jsSign_neq_iff_oppositeSign (p q : ℚ) (hp : p ≠ 0) (hq : q ≠ 0) :
    JsNum.strictNeqB (JsNum.num p).signJ (JsNum.num q).signJ =
      oppositeSignB (JsNum.num p) q := by
  simp only [JsNum.signJ, JsNum.strictNeqB, oppositeSignB]
  rw [decide_eq_decide]
  rcases hp.lt_or_lt with hp1 | hp1 <;> rcases hq.lt_or_lt with hq1 | hq1
  · rw [if_pos hp1, if_pos hq1]
    simp [lt_asymm hp1, lt_asymm hq1]
  · rw [if_pos hp1, if_neg (lt_asymm hq1), if_neg hq]
    constructor
    · intro _
      exact Or.inr ⟨hp1, hq1⟩
    · intro _
      norm_num
  · rw [if_neg (lt_asymm hp1), if_neg hp, if_pos hq1]
    constructor
    · intro _
      exact Or.inl ⟨hp1, hq1⟩
    · intro _
      norm_num
  · rw [if_neg (lt_asymm hp1), if_neg hp, if_neg (lt_asymm hq1), if_neg hq]
    simp [lt_asymm hp1, lt_asymm hq1]

theorem service_change_neqZero (pre post : List TokenBalance) (mint : String) :
    ∀ c ∈ SolanaService.calculateTokenBalanceChanges pre post mint,
      c.change.neqZeroB = true := by
  intro c hc
  obtain ⟨pb, hpb, hf⟩ := List.mem_filterMap.mp hc
  dsimp only at hf
  split at hf
  · split at hf
    · split at hf
      · rename_i hguard
        obtain rfl := Option.some.inj hf
        exact hguard
      · exact absurd hf (by simp)
    · exact absurd hf (by simp)
  · exact absurd hf (by simp)

theorem findCounterparty_matches_claim (changes : List BalanceChange)
    (wallet : String) (wc : BalanceChange) (q : ℚ)
    (hfind : changes.find? (fun c => c.owner == wallet) = some wc)
    (hwc : wc.change = JsNum.num q) (hq0 : q ≠ 0)
    (hnz : ∀ c ∈ changes, c.change.neqZeroB = true)
    (hnum : ∀ c ∈ changes, c.change ≠ JsNum.nan)
    (howners : ∀ c ∈ changes, c.owner ≠ "") :
    SolanaService.jsStrOrElse (SolanaService.findCounterparty changes wallet)
        unknownEntity =
      counterpartyName changes wallet q := by
  unfold SolanaService.findCounterparty counterpartyName firstOppositeDelta
  rw [hfind]
  dsimp only
  have hcongr : changes.find? (fun c =>
      !(c.owner == wallet) && JsNum.strictNeqB c.change.signJ wc.change.signJ) =
      changes.find? (fun c => !(c.owner == wallet) && oppositeSignB c.change q) := by
    apply find_congr_local
    intro c hcmem
    cases hcc : c.change with
    | nan => exact absurd hcc (hnum c hcmem)
    | num p =>
      have hp : p ≠ 0 := by
        have h1 := hnz c hcmem
        rw [hcc] at h1
        simpa [JsNum.neqZeroB] using h1
      rw [hwc, jsSign_neq_iff_oppositeSign p q hp hq0]
  rw [hcongr]
  cases hfo : changes.find?
      (fun c => !(c.owner == wallet) && oppositeSignB c.change q) with
  | none => simp [SolanaService.jsStrOrElse, unknownEntity]
  | some oc =>
    have hoc : oc.owner ≠ "" := howners oc (List.mem_of_find?_eq_some hfo)
    simp [SolanaService.jsStrOrElse, hoc]

/-- C4: scoped-mode synthesis — with transaction metadata and a truthy block
time present, and all deltas finite with non-empty owners: if the scoped
entity has no BalanceDelta the synthesizer produces nothing; otherwise it
emits exactly one TransferRecord whose direction is `received` iff the
scoped change `q` is positive, whose amount is `|q| / 10^decimals`, and
whose counterparty is the first opposite-sign BalanceDelta of another
entity, falling back to `Unknown`. -/
theorem scoped_synthesis_matches_claim (tx : ParsedTx) (wallet mint : String)
    (bt : ℤ) (hmeta : tx.hasMeta = true) (hbt : tx.blockTime = some bt)
    (hbt0 : ¬ bt = 0)
    (hnum : ∀ c ∈ SolanaService.calculateTokenBalanceChanges
      tx.preTokenBalances tx.postTokenBalances mint, c.change ≠ JsNum.nan)
    (howners : ∀ c ∈ SolanaService.calculateTokenBalanceChanges
      tx.preTokenBalances tx.postTokenBalances mint, c.owner ≠ "") :
    ((SolanaService.calculateTokenBalanceChanges tx.preTokenBalances
        tx.postTokenBalances mint).find? (fun c => c.owner == wallet) = none →
      SolanaService.parseTransactionForTokenTransfer tx wallet mint = none)
    ∧ (∀ wc, (SolanaService.calculateTokenBalanceChanges tx.preTokenBalances
        tx.postTokenBalances mint).find? (fun c => c.owner == wallet) = some wc →
      ∃ q : ℚ, wc.change = JsNum.num q ∧ q ≠ 0 ∧
        SolanaService.parseTransactionForTokenTransfer tx wallet mint = some
          { signature := firstSignature tx.signatures
            timestamp := bt * 1000
            direction := if 0 < q then TransferDirection.received
              else TransferDirection.sent
            amount := JsNum.num (|q| / 10 ^ SolanaService.getTokenDecimalsFromBalances
              tx.preTokenBalances tx.postTokenBalances mint)
            fromAddress := if 0 < q then
                counterpartyName (SolanaService.calculateTokenBalanceChanges
                  tx.preTokenBalances tx.postTokenBalances mint) wallet q
              else wallet
            toAddress := if 0 < q then wallet
              else counterpartyName (SolanaService.calculateTokenBalanceChanges
                tx.preTokenBalances tx.postTokenBalances mint) wallet q
            slot := tx.slot }) := by
  obtain ⟨hm, obt, pre, post, sigs, slotv⟩ := tx
  dsimp only at hmeta hbt hnum howners ⊢
  subst hmeta
  subst hbt
  have hred : SolanaService.parseTransactionForTokenTransfer
      ⟨true, some bt, pre, post, sigs, slotv⟩ wallet mint =
      (if (SolanaService.calculateTokenBalanceChanges pre post mint).isEmpty then none
       else
        match (SolanaService.calculateTokenBalanceChanges pre post mint).find?
            (fun c => c.owner == wallet) with
        | none => none
        | some wc =>
          if wc.change.eqZeroB then none
          else some
            { signature := firstSignature sigs
              timestamp := bt * 1000
              direction := if wc.change.gtZeroB then TransferDirection.received
                else TransferDirection.sent
              amount := wc.change.abs.divPow10
                (SolanaService.getTokenDecimalsFromBalances pre post mint)
              fromAddress := if wc.change.gtZeroB then
                  SolanaService.jsStrOrElse
                    (SolanaService.findCounterparty
                      (SolanaService.calculateTokenBalanceChanges pre post mint)
                      wallet) unknownEntity
                else wallet
              toAddress := if wc.change.gtZeroB then wallet
                else SolanaService.jsStrOrElse
                  (SolanaService.findCounterparty
                    (SolanaService.calculateTokenBalanceChanges pre post mint)
                    wallet) unknownEntity
              slot := slotv }) := by
    unfold SolanaService.parseTransactionForTokenTransfer
    dsimp only
    rw [if_neg (by simp)]
    rw [if_neg hbt0]
  constructor
  · intro hfind
    rw [hred]
    by_cases hemp : (SolanaService.calculateTokenBalanceChanges pre post mint).isEmpty = true
    · rw [if_pos hemp]
    · rw [if_neg hemp, hfind]
  · intro wc hfind
    have hmemwc := List.mem_of_find?_eq_some hfind
    have hnz := service_change_neqZero pre post mint
    obtain ⟨q, hwc⟩ : ∃ q : ℚ, wc.change = JsNum.num q := by
      cases hcc : wc.change with
      | nan => exact absurd hcc (hnum wc hmemwc)
      | num p => exact ⟨p, rfl⟩
    have hq0 : q ≠ 0 := by
      have h1 := hnz wc hmemwc
      rw [hwc] at h1
      simpa [JsNum.neqZeroB] using h1
    refine ⟨q, hwc, hq0, ?_⟩
    rw [hred, if_neg (by rw [isEmpty_false_of_mem hmemwc]; exact Bool.false_ne_true),
      hfind]
    split
    · rename_i heq
      exact absurd heq (by simp)
    rename_i wc2 heq
    obtain rfl := Option.some.inj heq
    rw [hwc]
    have hez : (JsNum.num q).eqZeroB = false := by
      simp [JsNum.eqZeroB, hq0]
    rw [hez]
    rw [if_neg Bool.false_ne_true]
    have hcp := findCounterparty_matches_claim
      (SolanaService.calculateTokenBalanceChanges pre post mint) wallet wc q
      hfind hwc hq0 hnz hnum howners
    have hamt : (JsNum.num q).abs.divPow10
        (SolanaService.getTokenDecimalsFromBalances pre post mint) =
        JsNum.num (|q| / 10 ^ SolanaService.getTokenDecimalsFromBalances pre post mint) := by
      simp [JsNum.abs, JsNum.divPow10, ratAbs_eq, ratDivPow10_eq]
    by_cases h0 : 0 < q
    · have hg : (JsNum.num q).gtZeroB = true := by simp [JsNum.gtZeroB, h0]
      rw [hg]
      simp only [if_true, if_pos h0, hamt, hcp]
    · have hg : (JsNum.num q).gtZeroB = false := by simp [JsNum.gtZeroB, h0]
      rw [hg]
      simp only [Bool.false_eq_true, if_false, if_neg h0, hamt, hcp]

/-- Scenario B's sender. -/
def entityAlice : String := "Alice"

/-- Scenario B's scoped receiver. -/
def entityBob : String := "Bob"

/-- Scenario B's raw pre-amount for Alice. -/
def rawAmt1000 : String := "1000"

/-- Scenario B's raw post-amount for Alice. -/
def rawAmt400 : String := "400"

/-- Scenario B's raw post-amount for Bob. -/
def rawAmt600 : String := "600"

/-- Scenario B's pre-snapshots. -/
def preScenB : List TokenBalance := [⟨1, mintX, some entityAlice, rawAmt1000, some 0⟩]

/-- Scenario B's post-snapshots. -/
def postScenB : List TokenBalance :=
  [⟨1, mintX, some entityAlice, rawAmt400, some 0⟩,
   ⟨2, mintX, some entityBob, rawAmt600, some 0⟩]

/-- Scenario B's transaction. -/
def txScenB : ParsedTx := ⟨true, some 123, preScenB, postScenB, [sigNan], 0⟩

/-- C4 witness: Scenario B — the query scoped to Bob yields exactly one
received TransferRecord of amount 600 from Alice to Bob. -/
theorem scoped_synthesis_matches_claim_witness :
    ∃ q : ℚ, (⟨entityBob, JsNum.num 600, toString (2 : ℕ)⟩ : BalanceChange).change =
        JsNum.num q ∧ q ≠ 0 ∧
      SolanaService.parseTransactionForTokenTransfer txScenB entityBob mintX = some
        { signature := firstSignature txScenB.signatures
          timestamp := 123 * 1000
          direction := if 0 < q then TransferDirection.received
            else TransferDirection.sent
          amount := JsNum.num (|q| / 10 ^ SolanaService.getTokenDecimalsFromBalances
            txScenB.preTokenBalances txScenB.postTokenBalances mintX)
          fromAddress := if 0 < q then
              counterpartyName (SolanaService.calculateTokenBalanceChanges
                txScenB.preTokenBalances txScenB.postTokenBalances mintX) entityBob q
            else entityBob
          toAddress := if 0 < q then entityBob
            else counterpartyName (SolanaService.calculateTokenBalanceChanges
              txScenB.preTokenBalances txScenB.postTokenBalances mintX) entityBob q
          slot := txScenB.slot } :=
  (scoped_synthesis_matches_claim txScenB entityBob mintX 123 rfl rfl
      (by decide) (by decide) (by decide)).2
    ⟨entityBob, JsNum.num 600, toString (2 : ℕ)⟩ (by decide)

theorem change_of_ltZeroB (x : JsNum) (h : x.ltZeroB = true) :
    ∃ p : ℚ, x = JsNum.num p ∧ p < 0 := by
  cases x with
  | nan => simp [JsNum.ltZeroB] at h
  | num p =>
    refine ⟨p, rfl, ?_⟩
    simpa [JsNum.ltZeroB] using h

theorem greedyPairLoop_sound (sig : String) (ts : ℤ) (slotN : ℕ) (dec : ℕ)
    (receivers : List BalanceChange) :
    ∀ (senders : List BalanceChange) (ps pr : List String) (t : TokenTransfer),
      t ∈ SolanaService.greedyPairLoop sig ts slotN dec receivers senders ps pr →
      ∃ s ∈ senders, ∃ r ∈ receivers,
        SolanaService.withinTolerance s r = true ∧
        t = { signature := sig, timestamp := ts
              direction := TransferDirection.sent
              amount := s.change.abs.divPow10 dec, fromAddress := s.owner
              toAddress := r.owner, slot := slotN } := by
  intro senders
  induction senders with
  | nil =>
    intro ps pr t ht
    simp [SolanaService.greedyPairLoop] at ht
  | cons s rest ih =>
    intro ps pr t ht
    rw [SolanaService.greedyPairLoop] at ht
    split at ht
    · obtain ⟨s', hs', hrest⟩ := ih ps pr t ht
      exact ⟨s', List.mem_cons_of_mem _ hs', hrest⟩
    · split at ht
      · obtain ⟨s', hs', hrest⟩ := ih ps pr t ht
        exact ⟨s', List.mem_cons_of_mem _ hs', hrest⟩
      · rename_i hnp r hfr
        rcases List.mem_cons.mp ht with rfl | ht'
        · have hpred := List.find?_some hfr
          have hmemr := List.mem_of_find?_eq_some hfr
          have htol : SolanaService.withinTolerance s r = true := by
            simp only [Bool.and_eq_true] at hpred
            exact hpred.2
          exact ⟨s, List.mem_cons_self _ _, r, hmemr, htol, rfl⟩
        · obtain ⟨s', hs', hrest⟩ := ih (s.owner :: ps) (r.owner :: pr) t ht'
          exact ⟨s', List.mem_cons_of_mem _ hs', hrest⟩

theorem greedyPairLoop_fresh (sig : String) (ts : ℤ) (slotN : ℕ) (dec : ℕ)
    (receivers : List BalanceChange) :
    ∀ (senders : List BalanceChange) (ps pr : List String) (t : TokenTransfer),
      t ∈ SolanaService.greedyPairLoop sig ts slotN dec receivers senders ps pr →
      ps.contains t.fromAddress = false ∧ pr.contains t.toAddress = false := by
  intro senders
  induction senders with
  | nil =>
    intro ps pr t ht
    simp [SolanaService.greedyPairLoop] at ht
  | cons s rest ih =>
    intro ps pr t ht
    rw [SolanaService.greedyPairLoop] at ht
    split at ht
    · exact ih ps pr t ht
    · rename_i hnp
      split at ht
      · exact ih ps pr t ht
      · rename_i r hfr
        rcases List.mem_cons.mp ht with rfl | ht'
        · constructor
          · simpa using hnp
          · have hpred := List.find?_some hfr
            simp only [Bool.and_eq_true, Bool.not_eq_true'] at hpred
            exact hpred.1
        · obtain ⟨h1, h2⟩ := ih (s.owner :: ps) (r.owner :: pr) t ht'
          simp only [List.contains_cons, Bool.or_eq_false_iff] at h1 h2
          exact ⟨h1.2, h2.2⟩

theorem greedyPairLoop_consumes (sig : String) (ts : ℤ) (slotN : ℕ) (dec : ℕ)
    (receivers : List BalanceChange) :
    ∀ (senders : List BalanceChange) (ps pr : List String),
      ((SolanaService.greedyPairLoop sig ts slotN dec receivers senders ps pr).map
        (fun t => t.fromAddress)).Nodup ∧
      ((SolanaService.greedyPairLoop sig ts slotN dec receivers senders ps pr).map
        (fun t => t.toAddress)).Nodup := by
  intro senders
  induction senders with
  | nil =>
    intro ps pr
    simp [SolanaService.greedyPairLoop]
  | cons s rest ih =>
    intro ps pr
    rw [SolanaService.greedyPairLoop]
    split
    · exact ih ps pr
    · split
      · exact ih ps pr
      · rename_i hnp r hfr
        obtain ⟨ihf, iht⟩ := ih (s.owner :: ps) (r.owner :: pr)
        constructor
        · simp only [List.map_cons, List.nodup_cons]
          refine ⟨?_, ihf⟩
          intro hmem
          rcases List.mem_map.mp hmem with ⟨t', ht', hkey⟩
          obtain ⟨h1, -⟩ := greedyPairLoop_fresh sig ts slotN dec receivers rest
            (s.owner :: ps) (r.owner :: pr) t' ht'
          simp only [List.contains_cons, Bool.or_eq_false_iff] at h1
          exact absurd hkey (by simpa using h1.1)
        · simp only [List.map_cons, List.nodup_cons]
          refine ⟨?_, iht⟩
          intro hmem
          rcases List.mem_map.mp hmem with ⟨t', ht', hkey⟩
          obtain ⟨-, h2⟩ := greedyPairLoop_fresh sig ts slotN dec receivers rest
            (s.owner :: ps) (r.owner :: pr) t' ht'
          simp only [List.contains_cons, Bool.or_eq_false_iff] at h2
          exact absurd hkey (by simpa using h2.1)

theorem greedyPairLoop_empty (sig : String) (ts : ℤ) (slotN : ℕ) (dec : ℕ)
    (receivers : List BalanceChange) :
    ∀ (senders : List BalanceChange) (ps pr : List String),
      SolanaService.greedyPairLoop sig ts slotN dec receivers senders ps pr = [] →
      ∀ s ∈ senders, ps.contains s.owner = false →
        receivers.find?
          (fun r => !(pr.contains r.owner) && SolanaService.withinTolerance s r) =
          none := by
  intro senders
  induction senders with
  | nil =>
    intro ps pr hrun s hs
    cases hs
  | cons s0 rest ih =>
    intro ps pr hrun s hs hsps
    rw [SolanaService.greedyPairLoop] at hrun
    split at hrun
    · rename_i hc
      rcases List.mem_cons.mp hs with rfl | hs'
      · exact absurd hc (by rw [hsps]; exact Bool.false_ne_true)
      · exact ih ps pr hrun s hs' hsps
    · split at hrun
      · rename_i hnp hfnone
        rcases List.mem_cons.mp hs with rfl | hs'
        · exact hfnone
        · exact ih ps pr hrun s hs' hsps
      · cases hrun

theorem parseMany_reduce (pre post : List TokenBalance) (sigs : List String)
    (slotv : ℕ) (bt : ℤ) (hbt0 : ¬ bt = 0) (mint : String) :
    SolanaService.parseTransactionForTokenTransfers
        ⟨true, some bt, pre, post, sigs, slotv⟩ mint =
      (if (SolanaService.calculateTokenBalanceChanges pre post mint).isEmpty then []
       else SolanaService.greedyPairLoop (firstSignature sigs) (bt * 1000) slotv
         (SolanaService.getTokenDecimalsFromBalances pre post mint)
         ((SolanaService.calculateTokenBalanceChanges pre post mint).filter
           (fun c => c.change.gtZeroB))
         ((SolanaService.calculateTokenBalanceChanges pre post mint).filter
           (fun c => c.change.ltZeroB))
         [] []) := by
  unfold SolanaService.parseTransactionForTokenTransfers
  dsimp only
  rw [if_neg (by simp)]
  rw [if_neg hbt0]

/-- The greedy-pairing scenario's sender entity. -/
def entityS : String := "S"

/-- The greedy-pairing scenario's receiver entity. -/
def entityR : String := "R"

/-- A raw amount of 0. -/
def rawAmt0 : String := "0"

/-- A raw amount of 999 (0.1% below 1000). -/
def rawAmt999 : String := "999"

/-- A raw amount of 900 (10% below 1000). -/
def rawAmt900 : String := "900"

/-- Greedy-pairing pre-snapshots: S holds 1000, R holds 0. -/
def preScenG : List TokenBalance :=
  [⟨1, mintX, some entityS, rawAmt1000, some 0⟩,
   ⟨2, mintX, some entityR, rawAmt0, some 0⟩]

/-- Post-snapshots for the within-tolerance case: S down to 0, R up to 999. -/
def postScenG1 : List TokenBalance :=
  [⟨1, mintX, some entityS, rawAmt0, some 0⟩,
   ⟨2, mintX, some entityR, rawAmt999, some 0⟩]

/-- Post-snapshots for the out-of-tolerance case: S down to 0, R up to 900. -/
def postScenG2 : List TokenBalance :=
  [⟨1, mintX, some entityS, rawAmt0, some 0⟩,
   ⟨2, mintX, some entityR, rawAmt900, some 0⟩]

/-- The within-tolerance pairing transaction (deltas -1000 and +999). -/
def txScenG1 : ParsedTx := ⟨true, some 123, preScenG, postScenG1, [sigNan], 0⟩

/-- The out-of-tolerance pairing transaction (deltas -1000 and +900). -/
def txScenG2 : ParsedTx := ⟨true, some 123, preScenG, postScenG2, [sigNan], 0⟩

/-- C5: unscoped greedy pairing — every emitted TransferRecord comes from a
sender/receiver pair within the 0.1%-of-larger-side tolerance, its amount is
the sender's absolute change over `10^decimals`, pairing consumes both
parties (no sender or receiver owner repeats), and an empty result means no
sender/receiver pair was within tolerance; concretely, deltas -1000/+999 at
decimals 0 synthesize one record of amount 1000 while -1000/+900 synthesize
none. -/
theorem greedy_pairing_tolerance_and_consumption :
    (∀ (tx : ParsedTx) (mint : String) (bt : ℤ), tx.hasMeta = true →
      tx.blockTime = some bt → ¬ bt = 0 →
      ((∀ t ∈ SolanaService.parseTransactionForTokenTransfers tx mint,
        ∃ s ∈ (SolanaService.calculateTokenBalanceChanges tx.preTokenBalances
            tx.postTokenBalances mint).filter (fun c => c.change.ltZeroB),
          ∃ r ∈ (SolanaService.calculateTokenBalanceChanges tx.preTokenBalances
            tx.postTokenBalances mint).filter (fun c => c.change.gtZeroB),
            SolanaService.withinTolerance s r = true ∧
            (∃ p : ℚ, s.change = JsNum.num p ∧ p < 0 ∧
              t.amount = JsNum.num (|p| / 10 ^
                SolanaService.getTokenDecimalsFromBalances tx.preTokenBalances
                  tx.postTokenBalances mint)) ∧
            t.fromAddress = s.owner ∧ t.toAddress = r.owner)
      ∧ ((SolanaService.parseTransactionForTokenTransfers tx mint).map
          (fun t => t.fromAddress)).Nodup
      ∧ ((SolanaService.parseTransactionForTokenTransfers tx mint).map
          (fun t => t.toAddress)).Nodup
      ∧ (SolanaService.parseTransactionForTokenTransfers tx mint = [] →
          ∀ s ∈ (SolanaService.calculateTokenBalanceChanges tx.preTokenBalances
              tx.postTokenBalances mint).filter (fun c => c.change.ltZeroB),
            ∀ r ∈ (SolanaService.calculateTokenBalanceChanges tx.preTokenBalances
              tx.postTokenBalances mint).filter (fun c => c.change.gtZeroB),
              SolanaService.withinTolerance s r = false)))
    ∧ SolanaService.parseTransactionForTokenTransfers txScenG1 mintX =
        [⟨sigNan, 123000, TransferDirection.sent, JsNum.num 1000, entityS, entityR, 0⟩]
    ∧ SolanaService.parseTransactionForTokenTransfers txScenG2 mintX = [] := by
  refine ⟨?_, by decide, by decide⟩
  intro tx mint bt hmeta hbt hbt0
  obtain ⟨hm, obt, pre, post, sigs, slotv⟩ := tx
  dsimp only at hmeta hbt ⊢
  subst hmeta
  subst hbt
  rw [parseMany_reduce pre post sigs slotv bt hbt0 mint]
  by_cases hemp : (SolanaService.calculateTokenBalanceChanges pre post mint).isEmpty = true
  · have hnil : SolanaService.calculateTokenBalanceChanges pre post mint = [] := by
      cases hch : SolanaService.calculateTokenBalanceChanges pre post mint with
      | nil => rfl
      | cons a l =>
        rw [hch] at hemp
        cases hemp
    rw [if_pos hemp]
    refine ⟨?_, by simp, by simp, ?_⟩
    · intro t ht
      cases ht
    · intro _ s hs
      rw [hnil] at hs
      cases hs
  · rw [if_neg hemp]
    refine ⟨?_, (greedyPairLoop_consumes _ _ _ _ _ _ [] []).1,
      (greedyPairLoop_consumes _ _ _ _ _ _ [] []).2, ?_⟩
    · intro t ht
      obtain ⟨s, hs, r, hr, htol, rfl⟩ :=
        greedyPairLoop_sound (firstSignature sigs) (bt * 1000) slotv
          (SolanaService.getTokenDecimalsFromBalances pre post mint)
          ((SolanaService.calculateTokenBalanceChanges pre post mint).filter
            (fun c => c.change.gtZeroB))
          ((SolanaService.calculateTokenBalanceChanges pre post mint).filter
            (fun c => c.change.ltZeroB))
          [] [] t ht
      obtain ⟨p, hsp, hplt⟩ := change_of_ltZeroB s.change (List.mem_filter.mp hs).2
      refine ⟨s, hs, r, hr, htol, ⟨p, hsp, hplt, ?_⟩, rfl, rfl⟩
      show s.change.abs.divPow10 _ = _
      rw [hsp]
      simp [JsNum.abs, JsNum.divPow10, ratAbs_eq, ratDivPow10_eq]
    · intro hrun s hs r hr
      have hfind := greedyPairLoop_empty (firstSignature sigs) (bt * 1000) slotv
        (SolanaService.getTokenDecimalsFromBalances pre post mint)
        ((SolanaService.calculateTokenBalanceChanges pre post mint).filter
          (fun c => c.change.gtZeroB))
        ((SolanaService.calculateTokenBalanceChanges pre post mint).filter
          (fun c => c.change.ltZeroB))
        [] [] hrun s hs rfl
      have hnr := List.find?_eq_none.mp hfind r hr
      simpa using hnr

/-- C5 witness: the -1000/+999 scenario's single emitted record comes from a
within-tolerance pair with amount 1000 from S to R. -/
theorem greedy_pairing_tolerance_and_consumption_witness :
    ∃ s ∈ (SolanaService.calculateTokenBalanceChanges txScenG1.preTokenBalances
        txScenG1.postTokenBalances mintX).filter (fun c => c.change.ltZeroB),
      ∃ r ∈ (SolanaService.calculateTokenBalanceChanges txScenG1.preTokenBalances
        txScenG1.postTokenBalances mintX).filter (fun c => c.change.gtZeroB),
        SolanaService.withinTolerance s r = true ∧
        (∃ p : ℚ, s.change = JsNum.num p ∧ p < 0 ∧
          (⟨sigNan, 123000, TransferDirection.sent, JsNum.num 1000, entityS,
            entityR, 0⟩ : TokenTransfer).amount = JsNum.num (|p| / 10 ^
              SolanaService.getTokenDecimalsFromBalances txScenG1.preTokenBalances
                txScenG1.postTokenBalances mintX)) ∧
        (⟨sigNan, 123000, TransferDirection.sent, JsNum.num 1000, entityS,
          entityR, 0⟩ : TokenTransfer).fromAddress = s.owner ∧
        (⟨sigNan, 123000, TransferDirection.sent, JsNum.num 1000, entityS,
          entityR, 0⟩ : TokenTransfer).toAddress = r.owner :=
  (greedy_pairing_tolerance_and_consumption.1 txScenG1 mintX 123 rfl rfl
      (by decide)).1
    ⟨sigNan, 123000, TransferDirection.sent, JsNum.num 1000, entityS, entityR, 0⟩
    (by decide)

/-- An oracle answering 429 on the first attempt and ok afterwards. -/
def rsRateThenOk : ℕ → HeliusService.UpResp :=
  fun a => if a = 1 then HeliusService.UpResp.rate else HeliusService.UpResp.ok

/-- An oracle answering ok on every attempt. -/
def rsAllOk : ℕ → HeliusService.UpResp := fun _ => HeliusService.UpResp.ok

/-- Four calls within 3 seconds: the first three each receive one 429
followed by a success (the success decrements the net counter back), the
fourth is all-ok. -/
def breakerScenario : List (ℤ × (ℕ → HeliusService.UpResp)) :=
  [(0, rsRateThenOk), (1000, rsRateThenOk), (2000, rsRateThenOk), (3000, rsAllOk)]

/-- C9 counterexample: the rolling-window breaker property as claimed is
false — after three rate-limited responses within a 30-second window
(interleaved with successes that decrement the counter), the fourth call
issues a request immediately with no 30-second cooldown. -/
theorem rolling_window_breaker_claim_fails : ¬ HeliusService.rollingWindowBreaker := by
  intro h
  have hget : ((HeliusService.runCalls ⟨0, 0⟩ breakerScenario).1.get? 3) =
      some (3000, [HeliusService.FetchAct.request HeliusService.UpResp.ok]) := by
    rfl
  have hcnt : 3 ≤ ((HeliusService.rateTimes
      ((HeliusService.runCalls ⟨0, 0⟩ breakerScenario).1.take 3)).filter
      (fun t => decide ((3000 : ℤ) - t < 30000))).length := by
    decide
  have hx := h breakerScenario 3 3000
    [HeliusService.FetchAct.request HeliusService.UpResp.ok] hget hcnt
  exact absurd hx (by decide)

theorem countRequests_cons_request (r : HeliusService.UpResp)
    (tr : List HeliusService.FetchAct) :
    HeliusService.countRequests (HeliusService.FetchAct.request r :: tr) =
      HeliusService.countRequests tr + 1 := rfl

theorem countRequests_cons_wait (w : ℤ) (tr : List HeliusService.FetchAct) :
    HeliusService.countRequests (HeliusService.FetchAct.wait w :: tr) =
      HeliusService.countRequests tr := rfl

theorem retryLoop_countRequests (now : ℤ) (responses : ℕ → HeliusService.UpResp)
    (maxRetries : ℕ) :
    ∀ (fuel attempt : ℕ) (st : HeliusService.Breaker),
      HeliusService.countRequests
        (HeliusService.retryLoop now responses maxRetries fuel attempt st).1 ≤ fuel := by
  intro fuel
  induction fuel with
  | zero =>
    intro attempt st
    simp [HeliusService.retryLoop, HeliusService.countRequests]
  | succ n ih =>
    intro attempt st
    rw [HeliusService.retryLoop]
    cases hresp : responses attempt with
    | rate =>
      by_cases hlt : attempt < maxRetries
      · rw [if_pos hlt]
        show HeliusService.countRequests
          (HeliusService.FetchAct.request HeliusService.UpResp.rate ::
            HeliusService.FetchAct.wait (HeliusService.backoffWait attempt) ::
            (HeliusService.retryLoop now responses maxRetries n (attempt + 1)
              ⟨st.count + 1, now⟩).1) ≤ n + 1
        rw [countRequests_cons_request, countRequests_cons_wait]
        exact Nat.succ_le_succ (ih (attempt + 1) ⟨st.count + 1, now⟩)
      · rw [if_neg hlt]
        show HeliusService.countRequests
          [HeliusService.FetchAct.request HeliusService.UpResp.rate] ≤ n + 1
        exact Nat.succ_le_succ (Nat.zero_le n)
    | ok => exact Nat.succ_le_succ (Nat.zero_le n)
    | other => exact Nat.succ_le_succ (Nat.zero_le n)
    | err =>
      by_cases heq : attempt = maxRetries
      · rw [if_pos heq]
        exact Nat.succ_le_succ (Nat.zero_le n)
      · rw [if_neg heq]
        show HeliusService.countRequests
          (HeliusService.FetchAct.request HeliusService.UpResp.err ::
            HeliusService.FetchAct.wait (1000 * attempt) ::
            (HeliusService.retryLoop now responses maxRetries n (attempt + 1) st).1) ≤ n + 1
        rw [countRequests_cons_request, countRequests_cons_wait]
        exact Nat.succ_le_succ (ih (attempt + 1) st)

/-- C9 (amended): the code's actual behavior — a call entered with the net
rate-limit counter at 3 or more and the last 429 under 30 s ago first awaits
a 30-second cooldown before any request; every call makes at most
`maxRetries` requests; and with the breaker untripped an all-429 call
produces exactly the capped-exponential trace request, wait 2000, request,
wait 4000, request.  The counter is net (each success decrements it), so
three 429s in a rolling window interleaved with successes do not trip the
breaker. -/
theorem fetch_retry_breaker_and_backoff (st : HeliusService.Breaker) (now : ℤ)
    (responses : ℕ → HeliusService.UpResp) :
    (3 ≤ st.count → now - st.lastTime < 30000 →
      HeliusService.requestBeforeCooldown
        (HeliusService.fetchWithRetry st now responses 3).1 = false)
    ∧ (∀ maxRetries : ℕ, HeliusService.countRequests
        (HeliusService.fetchWithRetry st now responses maxRetries).1 ≤ maxRetries)
    ∧ (¬ (3 ≤ st.count ∧ now - st.lastTime < 30000) →
      (HeliusService.fetchWithRetry st now
          (fun _ => HeliusService.UpResp.rate) 3).1 =
        [HeliusService.FetchAct.request HeliusService.UpResp.rate,
         HeliusService.FetchAct.wait (HeliusService.backoffWait 1),
         HeliusService.FetchAct.request HeliusService.UpResp.rate,
         HeliusService.FetchAct.wait (HeliusService.backoffWait 2),
         HeliusService.FetchAct.request HeliusService.UpResp.rate])
    ∧ HeliusService.backoffWait 1 = 2000 ∧ HeliusService.backoffWait 2 = 4000
    ∧ (∀ a : ℕ, HeliusService.backoffWait a = min (1000 * 2 ^ a) 10000 ∧
        HeliusService.backoffWait a ≤ 10000) := by
  refine ⟨?_, ?_, ?_, ?_, ?_, ?_⟩
  · intro h1 h2
    unfold HeliusService.fetchWithRetry
    rw [if_pos ⟨h1, h2⟩]
    rfl
  · intro maxRetries
    unfold HeliusService.fetchWithRetry
    by_cases hb : 3 ≤ st.count ∧ now - st.lastTime < 30000
    · rw [if_pos hb]
      show HeliusService.countRequests
        (HeliusService.FetchAct.wait 30000 ::
          (HeliusService.retryLoop now responses maxRetries maxRetries 1
            ⟨0, st.lastTime⟩).1) ≤ maxRetries
      rw [countRequests_cons_wait]
      exact retryLoop_countRequests now responses maxRetries maxRetries 1 _
    · rw [if_neg hb]
      exact retryLoop_countRequests now responses maxRetries maxRetries 1 st
  · intro hnb
    unfold HeliusService.fetchWithRetry
    rw [if_neg hnb]
    rfl
  · decide
  · decide
  · intro a
    exact ⟨rfl, min_le_right _ _⟩

/-- C9 witness: with the breaker tripped (counter 3, last 429 at time 0, call
entry at 500 ms) no request precedes the 30-second cooldown, at most 3
requests are made, and with a fresh breaker an all-429 call produces the
capped-exponential trace. -/
theorem fetch_retry_breaker_and_backoff_witness :
    HeliusService.requestBeforeCooldown
        (HeliusService.fetchWithRetry ⟨3, 0⟩ 500
          (fun _ => HeliusService.UpResp.rate) 3).1 = false
    ∧ HeliusService.countRequests
        (HeliusService.fetchWithRetry ⟨3, 0⟩ 500
          (fun _ => HeliusService.UpResp.rate) 3).1 ≤ 3
    ∧ (HeliusService.fetchWithRetry ⟨0, 0⟩ 500
          (fun _ => HeliusService.UpResp.rate) 3).1 =
        [HeliusService.FetchAct.request HeliusService.UpResp.rate,
         HeliusService.FetchAct.wait (HeliusService.backoffWait 1),
         HeliusService.FetchAct.request HeliusService.UpResp.rate,
         HeliusService.FetchAct.wait (HeliusService.backoffWait 2),
         HeliusService.FetchAct.request HeliusService.UpResp.rate] :=
  ⟨(fetch_retry_breaker_and_backoff ⟨3, 0⟩ 500
      (fun _ => HeliusService.UpResp.rate)).1 (by decide) (by decide),
    (fetch_retry_breaker_and_backoff ⟨3, 0⟩ 500
      (fun _ => HeliusService.UpResp.rate)).2.1 3,
    (fetch_retry_breaker_and_backoff ⟨0, 0⟩ 500
      (fun _ => HeliusService.UpResp.rate)).2.2.1 (by decide)⟩
